import Mathlib

/-!
Verification development for the Tamil-songs ingestion and retrieval system.

The Python sources under rag-ingestion/src are shallowly embedded:
  * preprocess.chunk_text            → chunk_text (windows made explicit by chunkWindows)
  * ingest_qdrant.make_point_id      → make_point_id (full SHA-1 / UUIDv5 implementation)
  * ingest_qdrant.main               → processSong / mainLoop over an abstract effect
                                       environment recording an operation trace
  * state_store.StateStore           → association-list state database (dbGet / dbUpsert)
  * playlist_builder.collapse_to_unique_songs, search_qdrant.search_songs,
    playlist_builder.build_playlist_from_query, build_playlist_from_seed
                                     → collapse_to_unique_songs, search_dedup,
                                       bpq_dedup, build_playlist_from_seed
Similarity scores are modelled as rationals; embedding vectors are abstract.
-/

/-! ## Chunker (preprocess.py) -/

/-- Characters treated as whitespace by Python's str.strip (ASCII portion). -/
def pyIsSpace (c : Char) : Bool :=
  c = ' ' || c = '\t' || c = '\n' || c = '\x0d' || c = '\x0b' || c = '\x0c'

/-- Python str.strip: drop whitespace from both ends. -/
def pyStrip (s : List Char) : List Char :=
  ((s.dropWhile pyIsSpace).reverse.dropWhile pyIsSpace).reverse

/-- Python slice text[a:b] on a character list. -/
def pySlice (s : List Char) (a b : Nat) : List Char :=
  (s.take b).drop a

/-- The (start, end) windows walked by the loop in chunk_text: end =
min (start + chunk_size) n; if end = n stop after this window, otherwise
the next window starts at end - overlap.  Fuel-based so that the kernel can
evaluate it; n - start ≤ fuel suffices because start strictly increases when
overlap < chunk_size. -/
def chunkWindowsAux (fuel n cs ov : Nat) (start : Nat) : List (Nat × Nat) :=
  match fuel with
  | 0 => []
  | fuel + 1 =>
    if start < n then
      if min (start + cs) n = n then [(start, min (start + cs) n)]
      else (start, min (start + cs) n) :: chunkWindowsAux fuel n cs ov (min (start + cs) n - ov)
    else []

/-- The window list of the chunk_text loop started at offset start. -/
def chunkWindows (n cs ov start : Nat) : List (Nat × Nat) :=
  chunkWindowsAux n n cs ov start

/-- preprocess.chunk_text: returns the trimmed, non-empty window slices; empty
input yields []; chunk_size <= overlap raises ValueError (modelled as .error).
The emptiness test precedes the configuration check, as in the source. -/
def chunk_text (text : List Char) (chunk_size : Nat := 1200) (overlap : Nat := 200) :
    Except String (List (List Char)) :=
  if text = [] then .ok []
  else if chunk_size ≤ overlap then .error "chunk_size must be > overlap"
  else
    .ok (((chunkWindows text.length chunk_size overlap 0).map
      (fun w => pyStrip (pySlice text w.1 w.2))).filter (fun c => !c.isEmpty))

/-! Basic window lemmas. -/

lemma chunkWindowsAux_head (fuel n cs ov start : Nat)
    (hfu : n - start ≤ fuel) (h : start < n) :
    (chunkWindowsAux fuel n cs ov start).head? = some (start, min (start + cs) n) := by
  cases fuel with
  | zero => omega
  | succ fuel =>
    rw [chunkWindowsAux]
    simp only [h, if_true]
    split <;> simp

lemma chunkWindowsAux_chain (fuel : Nat) :
    ∀ n cs ov start, ov < cs → n - start ≤ fuel →
    ∀ i s1 e1 s2 e2,
      (chunkWindowsAux fuel n cs ov start)[i]? = some (s1, e1) →
      (chunkWindowsAux fuel n cs ov start)[i + 1]? = some (s2, e2) →
      e1 = s1 + cs ∧ s2 = e1 - ov := by
  induction fuel with
  | zero =>
    intro n cs ov start _ _ i s1 e1 s2 e2 h1 _
    simp [chunkWindowsAux] at h1
  | succ fuel ih =>
    intro n cs ov start hov hfu i s1 e1 s2 e2 h1 h2
    rw [chunkWindowsAux] at h1 h2
    by_cases hs : start < n
    · simp only [hs, if_true] at h1 h2
      by_cases he : min (start + cs) n = n
      · simp only [he, if_true] at h1 h2
        have hi : i = 0 := by
          by_contra hne
          rcases Nat.exists_eq_succ_of_ne_zero hne with ⟨j, rfl⟩
          simp at h1
        subst hi
        simp at h2
      · simp only [he, if_false] at h1 h2
        have hlt : start + cs < n := by
          rcases Nat.lt_or_ge (start + cs) n with hlt | hge
          · exact hlt
          · exact absurd (Nat.min_eq_right hge) he
        have hmin : min (start + cs) n = start + cs := Nat.min_eq_left (Nat.le_of_lt hlt)
        rw [hmin] at h1 h2
        cases i with
        | zero =>
          simp only [List.getElem?_cons_zero, Option.some.injEq, Prod.mk.injEq] at h1
          have hstart2 : start + cs - ov < n := by omega
          have hfu2 : n - (start + cs - ov) ≤ fuel := by omega
          have hhd := chunkWindowsAux_head fuel n cs ov (start + cs - ov) hfu2 hstart2
          simp only [List.getElem?_cons_succ] at h2
          cases hres : chunkWindowsAux fuel n cs ov (start + cs - ov) with
          | nil => rw [hres] at hhd; simp at hhd
          | cons x xs =>
            rw [hres] at hhd h2
            simp only [List.head?_cons, Option.some.injEq] at hhd
            simp only [List.getElem?_cons_zero, Option.some.injEq] at h2
            subst hhd
            simp only [Prod.mk.injEq] at h2
            obtain ⟨h2a, _⟩ := h2
            obtain ⟨h1a, h1b⟩ := h1
            omega
        | succ j =>
          simp only [List.getElem?_cons_succ] at h1 h2
          exact ih n cs ov (start + cs - ov) hov (by omega) j s1 e1 s2 e2 h1 h2
    · simp [hs] at h1

lemma chunkWindowsAux_last (fuel : Nat) :
    ∀ n cs ov start, ov < cs → n - start ≤ fuel → start < n →
    ∃ s, (chunkWindowsAux fuel n cs ov start).getLast? = some (s, n) := by
  induction fuel with
  | zero => intro n cs ov start _ hfu hs; omega
  | succ fuel ih =>
    intro n cs ov start hov hfu hs
    rw [chunkWindowsAux]
    simp only [hs, if_true]
    by_cases he : min (start + cs) n = n
    · exact ⟨start, by simp [he]⟩
    · simp only [he, if_false]
      have hlt : start + cs < n := by
        rcases Nat.lt_or_ge (start + cs) n with hlt | hge
        · exact hlt
        · exact absurd (Nat.min_eq_right hge) he
      have hmin : min (start + cs) n = start + cs := Nat.min_eq_left (Nat.le_of_lt hlt)
      rw [hmin]
      obtain ⟨s, hlast⟩ := ih n cs ov (start + cs - ov) hov (by omega) (by omega)
      refine ⟨s, ?_⟩
      have hne : chunkWindowsAux fuel n cs ov (start + cs - ov) ≠ [] := by
        intro hnil
        rw [hnil] at hlast
        simp at hlast
      cases hrest : chunkWindowsAux fuel n cs ov (start + cs - ov) with
      | nil => exact absurd hrest hne
      | cons x xs =>
        rw [hrest] at hlast
        rw [List.getLast?_cons_cons]
        exact hlast

/-- Claim C6: for every text and parameters with chunk_size > overlap, the
windows walked by chunk_text advance their start offset by exactly
chunk_size - overlap per step (every non-final window spanning a full
chunk_size characters), the final window ends exactly at the text length,
chunk_text returns exactly the trimmed window slices with empty chunks
dropped, and empty input yields the empty chunk list. -/
theorem chunk_text_window_spec (text : List Char) (cs ov : Nat) (hov : ov < cs) :
    (∀ i s1 e1 s2 e2,
        (chunkWindows text.length cs ov 0)[i]? = some (s1, e1) →
        (chunkWindows text.length cs ov 0)[i + 1]? = some (s2, e2) →
        e1 = s1 + cs ∧ s2 = s1 + (cs - ov)) ∧
    (text ≠ [] → ∃ s, (chunkWindows text.length cs ov 0).getLast? = some (s, text.length)) ∧
    chunk_text text cs ov =
      .ok (((chunkWindows text.length cs ov 0).map
        (fun w => pyStrip (pySlice text w.1 w.2))).filter (fun c => !c.isEmpty)) ∧
    chunk_text [] cs ov = .ok [] := by
  refine ⟨?_, ?_, ?_, rfl⟩
  · intro i s1 e1 s2 e2 h1 h2
    have h := chunkWindowsAux_chain text.length text.length cs ov 0 hov (by omega)
      i s1 e1 s2 e2 h1 h2
    omega
  · intro hne
    have hlen : 0 < text.length := List.length_pos.mpr hne
    exact chunkWindowsAux_last text.length text.length cs ov 0 hov (by omega) hlen
  · rw [chunk_text]
    by_cases ht : text = []
    · subst ht
      simp [chunkWindows, chunkWindowsAux]
    · have hle : ¬ cs ≤ ov := by omega
      simp [ht, hle]

/-- Concrete text used by the chunker witnesses. -/
def chunkWitnessText : List Char :=
  ['h', 'e', 'l', 'l', 'o', ' ', 'w', 'o', 'r', 'l', 'd']

/-- Witness for C6: the window specification holds at a concrete text with
chunk_size 5 and overlap 2. -/
theorem chunk_text_window_spec_witness :
    2 < 5 ∧
    ((∀ i s1 e1 s2 e2,
        (chunkWindows chunkWitnessText.length 5 2 0)[i]? = some (s1, e1) →
        (chunkWindows chunkWitnessText.length 5 2 0)[i + 1]? = some (s2, e2) →
        e1 = s1 + 5 ∧ s2 = s1 + (5 - 2)) ∧
     (chunkWitnessText ≠ [] →
        ∃ s, (chunkWindows chunkWitnessText.length 5 2 0).getLast? =
          some (s, chunkWitnessText.length)) ∧
     chunk_text chunkWitnessText 5 2 =
       .ok (((chunkWindows chunkWitnessText.length 5 2 0).map
         (fun w => pyStrip (pySlice chunkWitnessText w.1 w.2))).filter
           (fun c => !c.isEmpty)) ∧
     chunk_text [] 5 2 = .ok []) :=
  ⟨by decide, chunk_text_window_spec chunkWitnessText 5 2 (by decide)⟩

/-- Counterexample to C7 as stated: on the empty string with
chunk_size 1 <= overlap 2, chunk_text returns .ok [] and does not raise;
the emptiness early-return precedes the configuration check. -/
theorem chunk_text_empty_bypasses_check :
    (1 : Nat) ≤ 2 ∧ chunk_text [] 1 2 = .ok [] ∧
    ∀ msg, chunk_text [] 1 2 ≠ .error msg := by
  refine ⟨by decide, rfl, ?_⟩
  intro msg h
  simp [chunk_text] at h

/-- Claim C7 (amended): for every NONEMPTY input text, calling chunk_text
with chunk_size <= overlap fails with the invalid-configuration error before
any chunk is produced; the empty string instead returns the empty chunk list
without raising. -/
theorem chunk_text_invalid_config (text : List Char) (cs ov : Nat)
    (hne : text ≠ []) (hle : cs ≤ ov) :
    chunk_text text cs ov = .error "chunk_size must be > overlap" := by
  rw [chunk_text]
  simp [hne, hle]

/-- Witness for the amended C7 at a concrete nonempty text. -/
theorem chunk_text_invalid_config_witness :
    (['a'] : List Char) ≠ [] ∧ (1 : Nat) ≤ 2 ∧
    chunk_text ['a'] 1 2 = .error "chunk_size must be > overlap" :=
  ⟨by decide, by decide, chunk_text_invalid_config ['a'] 1 2 (by decide) (by decide)⟩

/-! ## Deterministic point ids (ingest_qdrant.make_point_id)

make_point_id(song_id, chunk_idx) = str(uuid.uuid5(NAMESPACE, f"{song_id}:{chunk_idx}"))
with NAMESPACE = UUID("12345678-1234-5678-1234-567812345678").  UUIDv5 is the
SHA-1 digest of namespace bytes ++ UTF-8 name bytes with version and variant
bits forced.  SHA-1 is implemented below over byte lists with Nat arithmetic
modulo 2^32. -/

/-- UTF-8 encoding of one character, as byte values. -/
def utf8Bytes (c : Char) : List Nat :=
  let n := c.toNat
  if n < 0x80 then [n]
  else if n < 0x800 then [0xC0 + n / 0x40, 0x80 + n % 0x40]
  else if n < 0x10000 then
    [0xE0 + n / 0x1000, 0x80 + (n / 0x40) % 0x40, 0x80 + n % 0x40]
  else
    [0xF0 + n / 0x40000, 0x80 + (n / 0x1000) % 0x40, 0x80 + (n / 0x40) % 0x40, 0x80 + n % 0x40]

/-- UTF-8 bytes of a string. -/
def strBytes (s : String) : List Nat :=
  (s.toList.map utf8Bytes).flatten

/-- Rotate a 32-bit word left by k bits. -/
def rotl32 (x k : Nat) : Nat :=
  ((x <<< k) ||| (x >>> (32 - k))) % 4294967296

/-- Big-endian 4-byte groups to 32-bit words. -/
def bytesToWords : List Nat → List Nat
  | b0 :: b1 :: b2 :: b3 :: rest => (((b0 * 256 + b1) * 256 + b2) * 256 + b3) :: bytesToWords rest
  | _ => []

/-- Split a word list into 16-word blocks (fuel-based for kernel reduction). -/
def wordsToBlocksAux : Nat → List Nat → List (List Nat)
  | 0, _ => []
  | _ + 1, [] => []
  | fuel + 1, w :: ws => ((w :: ws).take 16) :: wordsToBlocksAux fuel ((w :: ws).drop 16)

def wordsToBlocks (ws : List Nat) : List (List Nat) :=
  wordsToBlocksAux ws.length ws

/-- SHA-1 padding: append 0x80, zeros, and the 64-bit big-endian bit length. -/
def sha1Pad (msg : List Nat) : List Nat :=
  let L := msg.length
  let zeros := (64 - ((L + 9) % 64)) % 64
  let bitLen := 8 * L
  msg ++ [0x80] ++ List.replicate zeros 0 ++
    [bitLen / 2 ^ 56 % 256, bitLen / 2 ^ 48 % 256, bitLen / 2 ^ 40 % 256,
     bitLen / 2 ^ 32 % 256, bitLen / 2 ^ 24 % 256, bitLen / 2 ^ 16 % 256,
     bitLen / 2 ^ 8 % 256, bitLen % 256]

/-- The 80-word SHA-1 message schedule of one block. -/
def sha1Schedule (block : List Nat) : List Nat :=
  (List.range 80).foldl (fun ws i =>
    if i < 16 then ws ++ [block.getD i 0]
    else ws ++ [rotl32 ((ws.getD (i - 3) 0) ^^^ (ws.getD (i - 8) 0) ^^^
                        (ws.getD (i - 14) 0) ^^^ (ws.getD (i - 16) 0)) 1]) []

/-- One SHA-1 block compression step. -/
def sha1Compress (st : Nat × Nat × Nat × Nat × Nat) (block : List Nat) :
    Nat × Nat × Nat × Nat × Nat :=
  let ws := sha1Schedule block
  let (h0, h1, h2, h3, h4) := st
  let (a, b, c, d, e) := (List.range 80).foldl
    (fun (abc : Nat × Nat × Nat × Nat × Nat) i =>
      let (a, b, c, d, e) := abc
      let f :=
        if i < 20 then (b &&& c) ||| ((b ^^^ 0xFFFFFFFF) &&& d)
        else if i < 40 then b ^^^ c ^^^ d
        else if i < 60 then (b &&& c) ||| (b &&& d) ||| (c &&& d)
        else b ^^^ c ^^^ d
      let k :=
        if i < 20 then 0x5A827999
        else if i < 40 then 0x6ED9EBA1
        else if i < 60 then 0x8F1BBCDC
        else 0xCA62C1D6
      let temp := (rotl32 a 5 + f + e + k + ws.getD i 0) % 4294967296
      (temp, a, rotl32 b 30, c, d)) (h0, h1, h2, h3, h4)
  ((h0 + a) % 4294967296, (h1 + b) % 4294967296, (h2 + c) % 4294967296,
   (h3 + d) % 4294967296, (h4 + e) % 4294967296)

/-- Big-endian bytes of a 32-bit word. -/
def wordBytes (w : Nat) : List Nat :=
  [w / 16777216 % 256, w / 65536 % 256, w / 256 % 256, w % 256]

/-- SHA-1 digest (20 bytes) of a byte list. -/
def sha1 (msg : List Nat) : List Nat :=
  let blocks := wordsToBlocks (bytesToWords (sha1Pad msg))
  let (h0, h1, h2, h3, h4) := blocks.foldl sha1Compress
    (0x67452301, 0xEFCDAB89, 0x98BADCFE, 0x10325476, 0xC3D2E1F0)
  wordBytes h0 ++ wordBytes h1 ++ wordBytes h2 ++ wordBytes h3 ++ wordBytes h4

/-- Bytes of the project namespace UUID 12345678-1234-5678-1234-567812345678. -/
def NAMESPACE_BYTES : List Nat :=
  [0x12, 0x34, 0x56, 0x78, 0x12, 0x34, 0x56, 0x78,
   0x12, 0x34, 0x56, 0x78, 0x12, 0x34, 0x56, 0x78]

/-- UUIDv5 bytes: truncated SHA-1 with version 5 and RFC 4122 variant bits. -/
def uuid5Bytes (ns name : List Nat) : List Nat :=
  let d := (sha1 (ns ++ name)).take 16
  let d := d.set 6 (d.getD 6 0 % 16 + 0x50)
  d.set 8 (d.getD 8 0 % 64 + 0x80)

def hexDigit (n : Nat) : Char :=
  if n < 10 then Char.ofNat (48 + n) else Char.ofNat (87 + n)

def byteHex (b : Nat) : List Char :=
  [hexDigit (b / 16), hexDigit (b % 16)]

/-- Standard 8-4-4-4-12 textual form of a 16-byte UUID. -/
def uuidStr (bs : List Nat) : String :=
  let hx := bs.map byteHex
  String.mk ((hx.take 4).flatten ++ ['-'] ++ ((hx.drop 4).take 2).flatten ++ ['-'] ++
    ((hx.drop 6).take 2).flatten ++ ['-'] ++ ((hx.drop 8).take 2).flatten ++ ['-'] ++
    (hx.drop 10).flatten)

/-- ingest_qdrant.make_point_id: deterministic UUIDv5 over song_id and chunk
index. -/
def make_point_id (song_id : String) (chunk_idx : Nat) : String :=
  uuidStr (uuid5Bytes NAMESPACE_BYTES (strBytes (song_id ++ ":" ++ toString chunk_idx)))

/-- make_point_id is a pure function: repeated calls on identical inputs give
identical ids (first half of claim C10). -/
theorem make_point_id_deterministic (s : String) (i : Nat) :
    make_point_id s i = make_point_id s i := rfl

set_option maxRecDepth 100000

/-- The ids of chunk 0 and chunk 1 differ for the song ids exercised by the
repository test suite; the all-song-ids version of this statement is SHA-1
collision freeness and is not settled here. -/
theorem make_point_id_distinct_song123 :
    make_point_id "song123" 0 ≠ make_point_id "song123" 1 := by decide

/-! ## State store (state_store.StateStore)

The sqlite table song_state(song_id PRIMARY KEY, lyrics_hash, meta_hash) is
modelled as an association list keyed by song_id. -/

abbrev StateDB := List (String × String × String)

/-- StateStore.get: SELECT lyrics_hash, meta_hash WHERE song_id = sid. -/
def dbGet : StateDB → String → Option (String × String)
  | [], _ => none
  | (s, lh, mh) :: rest, sid => if s = sid then some (lh, mh) else dbGet rest sid

/-- StateStore.upsert: INSERT ... ON CONFLICT(song_id) DO UPDATE. -/
def dbUpsert : StateDB → String → String → String → StateDB
  | [], sid, lh, mh => [(sid, lh, mh)]
  | (s, l, m) :: rest, sid, lh, mh =>
    if s = sid then (sid, lh, mh) :: rest else (s, l, m) :: dbUpsert rest sid lh mh

lemma dbGet_dbUpsert_self (db : StateDB) (sid lh mh : String) :
    dbGet (dbUpsert db sid lh mh) sid = some (lh, mh) := by
  induction db with
  | nil => simp [dbUpsert, dbGet]
  | cons r rest ih =>
    obtain ⟨s, l, m⟩ := r
    by_cases h : s = sid <;> simp [dbUpsert, dbGet, h, ih]

/-! ## Ingestion orchestrator (ingest_qdrant.main)

The orchestrator is embedded as a function over an abstract effect
environment.  External calls (model.encode, client.upsert, client.delete)
are fallible functions supplied by the environment; the function returns the
list of durably completed vector-index and state-store operations, the final
state database, and either normal completion or the first uncaught error. -/

structure Metadata where
  mood : Option String := none
  decade : Option String := none
  title : Option String := none
  singer : Option String := none
  movie : Option String := none
  year : Option String := none
  themes : Option String := none
deriving DecidableEq, Repr

structure Song where
  song_id : String
  lyrics : List Char
  lyrics_hash : String
  meta_hash : String
  metadata : Metadata
deriving DecidableEq, Repr

/-- The payload built for each chunk's point in ingest_qdrant.main. -/
structure Payload where
  song_id : String
  chunk_id : Nat
  mood : Option String
  decade : Option String
  title : Option String
  singer : Option String
  movie : Option String
  year : Option String
  themes : Option String
  chunk_txt : List Char
deriving DecidableEq, Repr

structure Point (V : Type) where
  id : String
  vector : V
  payload : Payload
deriving DecidableEq, Repr

/-- Durable operations issued by the orchestrator, in issue order. -/
inductive Op (V : Type) where
  | deleteByFilter (key : String) (value : String)
  | upsertPoints (points : List (Point V))
  | stateUpsert (song_id lyrics_hash meta_hash : String)
deriving DecidableEq, Repr

/-- ingest_qdrant.delete_song_chunks: delete by a payload filter on song_id. -/
def delete_song_chunks (V : Type) (song_id : String) : Op V :=
  .deleteByFilter "song_id" song_id

/-- External collaborators of the orchestrator: the embedding model and the
vector index client, each call fallible. -/
structure Env (V : Type) where
  encode : List (List Char) → Except String (List V)
  upsertResult : List (Point V) → Except String Unit
  deleteResult : String → Except String Unit

/-- The point batch built for one song: one point per chunk, deterministic id,
metadata payload. -/
def buildPoints {V : Type} (song : Song) (chunks : List (List Char))
    (vectors : List V) : List (Point V) :=
  (chunks.zip vectors).enum.map fun p =>
    { id := make_point_id song.song_id p.1
      vector := p.2.2
      payload :=
        { song_id := song.song_id
          chunk_id := p.1
          mood := song.metadata.mood
          decade := song.metadata.decade
          title := song.metadata.title
          singer := song.metadata.singer
          movie := song.metadata.movie
          year := song.metadata.year
          themes := song.metadata.themes
          chunk_txt := p.2.1 } }

/-- is_changed: a prior state row exists and its lyrics hash differs. -/
def isChangedFor (db : StateDB) (song : Song) : Bool :=
  match dbGet db song.song_id with
  | some (lh, _) => lh != song.lyrics_hash
  | none => false

/-- is_new: no prior state row. -/
def isNewFor (db : StateDB) (song : Song) : Bool :=
  (dbGet db song.song_id).isNone

/-- The delete operations the orchestrator issues for one song. -/
def delOpsFor (V : Type) (db : StateDB) (song : Song) : List (Op V) :=
  if isChangedFor db song then [delete_song_chunks V song.song_id] else []

/-- The per-song body of the loop in ingest_qdrant.main.  Returns the
completed operations, the resulting state database, and .ok counted (counted
is true when the song reached the final ingest counter increment) or the
first uncaught error. -/
def processSong {V : Type} (env : Env V) (db : StateDB) (song : Song) :
    List (Op V) × StateDB × Except String Bool :=
  if !(isNewFor db song || isChangedFor db song) then ([], db, .ok false)
  else
    match (if isChangedFor db song then env.deleteResult song.song_id else .ok ()) with
    | .error e => ([], db, .error e)
    | .ok _ =>
      match chunk_text song.lyrics 1200 200 with
      | .error e => (delOpsFor V db song, db, .error e)
      | .ok chunks =>
        if chunks.isEmpty then
          (delOpsFor V db song ++
             [Op.stateUpsert song.song_id song.lyrics_hash song.meta_hash],
           dbUpsert db song.song_id song.lyrics_hash song.meta_hash, .ok false)
        else
          match env.encode chunks with
          | .error e => (delOpsFor V db song, db, .error e)
          | .ok vectors =>
            match env.upsertResult (buildPoints song chunks vectors) with
            | .error e => (delOpsFor V db song, db, .error e)
            | .ok _ =>
              (delOpsFor V db song ++
                 [Op.upsertPoints (buildPoints song chunks vectors),
                  Op.stateUpsert song.song_id song.lyrics_hash song.meta_hash],
               dbUpsert db song.song_id song.lyrics_hash song.meta_hash, .ok true)

/-- The scan-limit break at the top of the loop body. -/
def scanBreak (scan_limit : Option Nat) (scanned : Nat) : Bool :=
  match scan_limit with
  | none => false
  | some s => decide (s ≤ scanned)

/-- The song loop of ingest_qdrant.main with its processed/scanned counters;
an uncaught exception from processSong aborts the whole run. -/
def mainLoop {V : Type} (env : Env V) (ingest_limit : Nat) (scan_limit : Option Nat) :
    StateDB → List Song → Nat → Nat → List (Op V) × StateDB × Except String Unit
  | db, [], _, _ => ([], db, .ok ())
  | db, song :: rest, processed, scanned =>
    if scanBreak scan_limit (scanned + 1) then ([], db, .ok ())
    else
      match processSong env db song with
      | (ops, db2, .error e) => (ops, db2, .error e)
      | (ops, db2, .ok counted) =>
        let processed2 := if counted then processed + 1 else processed
        if counted && decide (ingest_limit ≤ processed2) then (ops, db2, .ok ())
        else
          let r := mainLoop env ingest_limit scan_limit db2 rest processed2 (scanned + 1)
          (ops ++ r.1, r.2.1, r.2.2)

/-- ingest_qdrant.main, from an initial state database and song stream. -/
def ingestMain {V : Type} (env : Env V) (db : StateDB) (songs : List Song)
    (ingest_limit : Nat := 50) (scan_limit : Option Nat := none) :
    List (Op V) × StateDB × Except String Unit :=
  mainLoop env ingest_limit scan_limit db songs 0 0

/-- Branch analysis of processSong after a successful (or skipped) delete. -/
lemma processSong_shape_core {V : Type} (env : Env V) (db : StateDB) (song : Song)
    (hact : (isNewFor db song || isChangedFor db song) = true)
    (hdelok : (if isChangedFor db song then env.deleteResult song.song_id
               else Except.ok ()) = .ok ()) :
    (∃ e, chunk_text song.lyrics 1200 200 = .error e ∧
       processSong env db song = (delOpsFor V db song, db, .error e)) ∨
    (chunk_text song.lyrics 1200 200 = .ok [] ∧
       processSong env db song =
         (delOpsFor V db song ++
            [Op.stateUpsert song.song_id song.lyrics_hash song.meta_hash],
          dbUpsert db song.song_id song.lyrics_hash song.meta_hash, .ok false)) ∨
    (∃ chunks, chunk_text song.lyrics 1200 200 = .ok chunks ∧ chunks ≠ [] ∧
      ((∃ e, env.encode chunks = .error e ∧
         processSong env db song = (delOpsFor V db song, db, .error e)) ∨
       (∃ vecs, env.encode chunks = .ok vecs ∧
        ((∃ e, env.upsertResult (buildPoints song chunks vecs) = .error e ∧
           processSong env db song = (delOpsFor V db song, db, .error e)) ∨
         (env.upsertResult (buildPoints song chunks vecs) = .ok () ∧
           processSong env db song =
             (delOpsFor V db song ++
                [Op.upsertPoints (buildPoints song chunks vecs),
                 Op.stateUpsert song.song_id song.lyrics_hash song.meta_hash],
              dbUpsert db song.song_id song.lyrics_hash song.meta_hash,
              .ok true)))))) := by
  cases hct : chunk_text song.lyrics 1200 200 with
  | error e =>
    exact Or.inl ⟨e, rfl, by rw [processSong]; simp [hact, hdelok, hct]⟩
  | ok chunks =>
    by_cases hemp : chunks = []
    · subst hemp
      exact Or.inr (Or.inl ⟨rfl, by rw [processSong]; simp [hact, hdelok, hct]⟩)
    · have hemp2 : chunks.isEmpty = false := by
        cases chunks with
        | nil => exact absurd rfl hemp
        | cons c cs => rfl
      refine Or.inr (Or.inr ⟨chunks, rfl, hemp, ?_⟩)
      cases henc : env.encode chunks with
      | error e =>
        exact Or.inl ⟨e, rfl, by rw [processSong]; simp [hact, hdelok, hct, hemp2, henc]⟩
      | ok vecs =>
        refine Or.inr ⟨vecs, rfl, ?_⟩
        cases hup : env.upsertResult (buildPoints song chunks vecs) with
        | error e =>
          exact Or.inl ⟨e, rfl,
            by rw [processSong]; simp [hact, hdelok, hct, hemp2, henc, hup]⟩
        | ok u =>
          cases u
          exact Or.inr ⟨rfl,
            by rw [processSong]; simp [hact, hdelok, hct, hemp2, henc, hup]⟩

/-- Full branch analysis of processSong. -/
lemma processSong_shape {V : Type} (env : Env V) (db : StateDB) (song : Song) :
    ((isNewFor db song || isChangedFor db song) = false ∧
       processSong env db song = ([], db, .ok false)) ∨
    ((isNewFor db song || isChangedFor db song) = true ∧
     ((∃ e, isChangedFor db song = true ∧ env.deleteResult song.song_id = .error e ∧
        processSong env db song = ([], db, .error e)) ∨
      ((if isChangedFor db song then env.deleteResult song.song_id
        else Except.ok ()) = .ok () ∧
       ((∃ e, chunk_text song.lyrics 1200 200 = .error e ∧
          processSong env db song = (delOpsFor V db song, db, .error e)) ∨
        (chunk_text song.lyrics 1200 200 = .ok [] ∧
          processSong env db song =
            (delOpsFor V db song ++
               [Op.stateUpsert song.song_id song.lyrics_hash song.meta_hash],
             dbUpsert db song.song_id song.lyrics_hash song.meta_hash, .ok false)) ∨
        (∃ chunks, chunk_text song.lyrics 1200 200 = .ok chunks ∧ chunks ≠ [] ∧
         ((∃ e, env.encode chunks = .error e ∧
            processSong env db song = (delOpsFor V db song, db, .error e)) ∨
          (∃ vecs, env.encode chunks = .ok vecs ∧
           ((∃ e, env.upsertResult (buildPoints song chunks vecs) = .error e ∧
              processSong env db song = (delOpsFor V db song, db, .error e)) ∨
            (env.upsertResult (buildPoints song chunks vecs) = .ok () ∧
              processSong env db song =
                (delOpsFor V db song ++
                   [Op.upsertPoints (buildPoints song chunks vecs),
                    Op.stateUpsert song.song_id song.lyrics_hash song.meta_hash],
                 dbUpsert db song.song_id song.lyrics_hash song.meta_hash,
                 .ok true)))))))))) := by
  by_cases hact : (isNewFor db song || isChangedFor db song) = true
  · refine Or.inr ⟨hact, ?_⟩
    by_cases hch : isChangedFor db song = true
    · cases hdel : env.deleteResult song.song_id with
      | error e =>
        exact Or.inl ⟨e, hch, rfl, by rw [processSong]; simp [hact, hch, hdel]⟩
      | ok u =>
        cases u
        have hdelok : (if isChangedFor db song then env.deleteResult song.song_id
            else Except.ok ()) = .ok () := by simp [hch, hdel]
        exact Or.inr ⟨by simp, processSong_shape_core env db song hact hdelok⟩
    · have hchf : isChangedFor db song = false := by
        cases h : isChangedFor db song
        · rfl
        · exact absurd h hch
      have hdelok : (if isChangedFor db song then env.deleteResult song.song_id
          else Except.ok ()) = .ok () := by simp [hchf]
      exact Or.inr ⟨hdelok, processSong_shape_core env db song hact hdelok⟩
  · have hactf : (isNewFor db song || isChangedFor db song) = false := by
      cases h : (isNewFor db song || isChangedFor db song)
      · rfl
      · exact absurd h hact
    exact Or.inl ⟨hactf, by rw [processSong]; simp [hactf]⟩

lemma delOps_getElem_no_stateUpsert {V : Type} (db : StateDB) (song : Song)
    (i : Nat) (sid lh mh : String) :
    (delOpsFor V db song)[i]? ≠ some (Op.stateUpsert sid lh mh) := by
  unfold delOpsFor
  split
  · cases i with
    | zero => simp [delete_song_chunks]
    | succ j => simp
  · simp

lemma delOps_no_upsertPoints_mem {V : Type} (db : StateDB) (song : Song)
    (pts : List (Point V)) : Op.upsertPoints pts ∉ delOpsFor V db song := by
  unfold delOpsFor
  split <;> simp [delete_song_chunks]

lemma delOps_no_stateUpsert_mem {V : Type} (db : StateDB) (song : Song)
    (sid lh mh : String) : Op.stateUpsert sid lh mh ∉ delOpsFor V db song := by
  unfold delOpsFor
  split <;> simp [delete_song_chunks]

/-- Trace soundness for claim C1: every state commit in the trace is for a
song whose full point batch was durably upserted earlier in the trace, or
for a song with zero chunks. -/
def goodTrace {V : Type} (env : Env V) (songs : List Song) (T : List (Op V)) : Prop :=
  ∀ (i : Nat) (sid lh mh : String), T[i]? = some (Op.stateUpsert sid lh mh) →
    (∃ j, j < i ∧ ∃ song chunks vecs, song ∈ songs ∧ song.song_id = sid ∧
        chunk_text song.lyrics 1200 200 = .ok chunks ∧ chunks ≠ [] ∧
        env.encode chunks = .ok vecs ∧
        env.upsertResult (buildPoints song chunks vecs) = .ok () ∧
        T[j]? = some (Op.upsertPoints (buildPoints song chunks vecs))) ∨
    (∃ song, song ∈ songs ∧ song.song_id = sid ∧
        chunk_text song.lyrics 1200 200 = .ok [])

lemma goodTrace_nil {V : Type} (env : Env V) (songs : List Song) :
    goodTrace env songs [] := by
  unfold goodTrace
  intro i sid lh mh h
  simp at h

lemma goodTrace_weaken {V : Type} {env : Env V} {songs songs' : List Song}
    {T : List (Op V)} (hsub : ∀ s, s ∈ songs → s ∈ songs') :
    goodTrace env songs T → goodTrace env songs' T := by
  unfold goodTrace
  intro hg i sid lh mh h
  rcases hg i sid lh mh h with
    ⟨j, hj, song, chunks, vecs, hmem, hsid, hct, hne, henc, hup, hT⟩ |
    ⟨song, hmem, hsid, hct⟩
  · exact Or.inl ⟨j, hj, song, chunks, vecs, hsub song hmem, hsid, hct, hne, henc, hup, hT⟩
  · exact Or.inr ⟨song, hsub song hmem, hsid, hct⟩

lemma goodTrace_append {V : Type} {env : Env V} {songs : List Song}
    {T1 T2 : List (Op V)} (h1 : goodTrace env songs T1) (h2 : goodTrace env songs T2) :
    goodTrace env songs (T1 ++ T2) := by
  unfold goodTrace at h1 h2 ⊢
  intro i sid lh mh h
  by_cases hi : i < T1.length
  · rw [List.getElem?_append_left hi] at h
    rcases h1 i sid lh mh h with
      ⟨j, hj, song, chunks, vecs, hmem, hsid, hct, hne, henc, hup, hT⟩ |
      ⟨song, hmem, hsid, hct⟩
    · refine Or.inl ⟨j, hj, song, chunks, vecs, hmem, hsid, hct, hne, henc, hup, ?_⟩
      rw [List.getElem?_append_left (by omega)]
      exact hT
    · exact Or.inr ⟨song, hmem, hsid, hct⟩
  · rw [List.getElem?_append_right (by omega)] at h
    rcases h2 (i - T1.length) sid lh mh h with
      ⟨j, hj, song, chunks, vecs, hmem, hsid, hct, hne, henc, hup, hT⟩ |
      ⟨song, hmem, hsid, hct⟩
    · refine Or.inl ⟨j + T1.length, by omega, song, chunks, vecs, hmem, hsid, hct, hne,
        henc, hup, ?_⟩
      rw [List.getElem?_append_right (by omega)]
      simpa using hT
    · exact Or.inr ⟨song, hmem, hsid, hct⟩

/-- The per-song operation list of processSong satisfies the C1 trace
invariant. -/
lemma processSong_goodTrace {V : Type} (env : Env V) (db : StateDB) (song : Song) :
    goodTrace env [song] (processSong env db song).1 := by
  unfold goodTrace
  intro i sid lh mh h
  rcases processSong_shape env db song with ⟨hact, heq⟩ | ⟨hact, hbr⟩
  · have hops : (processSong env db song).1 = [] := by rw [heq]
    rw [hops] at h
    simp at h
  · rcases hbr with ⟨e, hch, hdel, heq⟩ | ⟨hdelok, hcore⟩
    · have hops : (processSong env db song).1 = [] := by rw [heq]
      rw [hops] at h
      simp at h
    · rcases hcore with ⟨e, hct, heq⟩ | ⟨hct, heq⟩ | ⟨chunks, hct, hne, hcc⟩
      · have hops : (processSong env db song).1 = delOpsFor V db song := by rw [heq]
        rw [hops] at h
        exact absurd h (delOps_getElem_no_stateUpsert db song i sid lh mh)
      · have hops : (processSong env db song).1 =
            delOpsFor V db song ++
              [Op.stateUpsert song.song_id song.lyrics_hash song.meta_hash] := by rw [heq]
        rw [hops] at h
        right
        refine ⟨song, by simp, ?_, hct⟩
        by_cases hi : i < (delOpsFor V db song).length
        · rw [List.getElem?_append_left hi] at h
          exact absurd h (delOps_getElem_no_stateUpsert db song i sid lh mh)
        · rw [List.getElem?_append_right (by omega)] at h
          rcases hk : i - (delOpsFor V db song).length with _ | k
          · rw [hk] at h
            simp only [List.getElem?_cons_zero, Option.some.injEq,
              Op.stateUpsert.injEq] at h
            exact h.1
          · rw [hk] at h
            simp at h
      · rcases hcc with ⟨e, henc, heq⟩ | ⟨vecs, henc, hcc2⟩
        · have hops : (processSong env db song).1 = delOpsFor V db song := by rw [heq]
          rw [hops] at h
          exact absurd h (delOps_getElem_no_stateUpsert db song i sid lh mh)
        · rcases hcc2 with ⟨e, hup, heq⟩ | ⟨hup, heq⟩
          · have hops : (processSong env db song).1 = delOpsFor V db song := by rw [heq]
            rw [hops] at h
            exact absurd h (delOps_getElem_no_stateUpsert db song i sid lh mh)
          · have hops : (processSong env db song).1 =
                delOpsFor V db song ++
                  [Op.upsertPoints (buildPoints song chunks vecs),
                   Op.stateUpsert song.song_id song.lyrics_hash song.meta_hash] := by
              rw [heq]
            rw [hops] at h ⊢
            by_cases hi : i < (delOpsFor V db song).length
            · rw [List.getElem?_append_left hi] at h
              exact absurd h (delOps_getElem_no_stateUpsert db song i sid lh mh)
            · rw [List.getElem?_append_right (by omega)] at h
              rcases hk : i - (delOpsFor V db song).length with _ | k
              · rw [hk] at h
                simp at h
              · rcases k with _ | k2
                · rw [hk] at h
                  simp only [List.getElem?_cons_succ, List.getElem?_cons_zero,
                    Option.some.injEq, Op.stateUpsert.injEq] at h
                  obtain ⟨hsid, hlh, hmh⟩ := h
                  refine Or.inl ⟨(delOpsFor V db song).length, by omega, song, chunks, vecs,
                    by simp, hsid, hct, hne, henc, hup, ?_⟩
                  rw [List.getElem?_append_right (by omega)]
                  simp
                · rw [hk] at h
                  simp at h

/-- Every full-run trace of the ingestion loop satisfies the C1 invariant. -/
lemma mainLoop_goodTrace {V : Type} (env : Env V) (il : Nat) (sl : Option Nat) :
    ∀ (songs : List Song) (db : StateDB) (processed scanned : Nat),
      goodTrace env songs (mainLoop env il sl db songs processed scanned).1 := by
  intro songs
  induction songs with
  | nil =>
    intro db processed scanned
    rw [mainLoop]
    exact goodTrace_nil env []
  | cons song rest ih =>
    intro db processed scanned
    rw [mainLoop]
    by_cases hsb : scanBreak sl (scanned + 1) = true
    · simp only [hsb, if_true]
      exact goodTrace_nil env _
    · have hsbf : scanBreak sl (scanned + 1) = false := by
        cases hx : scanBreak sl (scanned + 1)
        · rfl
        · exact absurd hx hsb
      simp only [hsbf, Bool.false_eq_true, if_false]
      rcases hps : processSong env db song with ⟨ops, db2, r⟩
      have hg : goodTrace env [song] ops := by
        have hg0 := processSong_goodTrace env db song
        rw [hps] at hg0
        exact hg0
      have hsub : ∀ s, s ∈ [song] → s ∈ song :: rest := by
        intro s hs
        simp at hs
        simp [hs]
      have hsub2 : ∀ s, s ∈ rest → s ∈ song :: rest := by
        intro s hs
        simp [hs]
      cases r with
      | error e =>
        exact goodTrace_weaken hsub hg
      | ok counted =>
        simp only []
        by_cases hbr :
            (counted && decide (il ≤ if counted then processed + 1 else processed)) = true
        · rw [if_pos hbr]
          exact goodTrace_weaken hsub hg
        · rw [if_neg hbr]
          exact goodTrace_append (goodTrace_weaken hsub hg)
            (goodTrace_weaken hsub2 (ih db2 _ _))

/-- Claim C1: in every execution of the ingestion loop, a state record for a
song is committed only after a successful batch upsert of all of that song's
points appears earlier in the operation trace, except for songs whose lyrics
produce zero chunks, which commit with zero vector writes. -/
theorem ingest_state_commit_after_upsert {V : Type} (env : Env V) (il : Nat)
    (sl : Option Nat) (songs : List Song) (db : StateDB) (processed scanned : Nat)
    (i : Nat) (sid lh mh : String)
    (h : (mainLoop env il sl db songs processed scanned).1[i]? =
      some (Op.stateUpsert sid lh mh)) :
    (∃ j, j < i ∧ ∃ song chunks vecs, song ∈ songs ∧ song.song_id = sid ∧
        chunk_text song.lyrics 1200 200 = .ok chunks ∧ chunks ≠ [] ∧
        env.encode chunks = .ok vecs ∧
        env.upsertResult (buildPoints song chunks vecs) = .ok () ∧
        (mainLoop env il sl db songs processed scanned).1[j]? =
          some (Op.upsertPoints (buildPoints song chunks vecs))) ∨
    (∃ song, song ∈ songs ∧ song.song_id = sid ∧
        chunk_text song.lyrics 1200 200 = .ok []) :=
  mainLoop_goodTrace env il sl songs db processed scanned i sid lh mh h

lemma delOps_getElem_no_upsertPoints {V : Type} (db : StateDB) (song : Song)
    (j : Nat) (pts : List (Point V)) :
    (delOpsFor V db song)[j]? ≠ some (Op.upsertPoints pts) := by
  unfold delOpsFor
  split
  · cases j with
    | zero => simp [delete_song_chunks]
    | succ k => simp
  · simp

/-- Claim C2: a song whose stored state exists and whose stored lyrics hash
equals the computed one is skipped entirely: no vector-index operation, no
state write, state database unchanged — even when the stored metadata hash
differs. -/
theorem processSong_unchanged_skips {V : Type} (env : Env V) (db : StateDB)
    (song : Song) (lh mh0 : String)
    (hget : dbGet db song.song_id = some (lh, mh0))
    (hhash : lh = song.lyrics_hash) :
    processSong env db song = ([], db, .ok false) := by
  have hnew : isNewFor db song = false := by simp [isNewFor, hget]
  have hch : isChangedFor db song = false := by simp [isChangedFor, hget, hhash]
  rw [processSong]
  simp [hnew, hch]

/-- Claim C3: for a song classified CHANGED, the delete-by-song_id-filter
operation precedes every point upsert in the trace; a song classified NEW
issues no delete at all. -/
theorem processSong_delete_before_upsert {V : Type} (env : Env V) (db : StateDB)
    (song : Song) :
    ((∃ lh0 mh0, dbGet db song.song_id = some (lh0, mh0) ∧ lh0 ≠ song.lyrics_hash) →
      ∀ (j : Nat) (pts : List (Point V)),
        (processSong env db song).1[j]? = some (Op.upsertPoints pts) →
        ∃ i2 : Nat, i2 < j ∧ (processSong env db song).1[i2]? =
          some (Op.deleteByFilter "song_id" song.song_id)) ∧
    (dbGet db song.song_id = none →
      ∀ k v, Op.deleteByFilter k v ∉ (processSong env db song).1) := by
  constructor
  · rintro ⟨lh0, mh0, hget, hne⟩ j pts hj
    have hch : isChangedFor db song = true := by
      simp [isChangedFor, hget, bne_iff_ne, hne]
    have hdel : delOpsFor V db song = [Op.deleteByFilter "song_id" song.song_id] := by
      simp [delOpsFor, hch, delete_song_chunks]
    rcases processSong_shape env db song with ⟨hact, heq⟩ | ⟨hact, hbr⟩
    · have hops : (processSong env db song).1 = [] := by rw [heq]
      rw [hops] at hj
      simp at hj
    · rcases hbr with ⟨e, hch2, hdele, heq⟩ | ⟨hdelok, hcore⟩
      · have hops : (processSong env db song).1 = [] := by rw [heq]
        rw [hops] at hj
        simp at hj
      · rcases hcore with ⟨e, hct, heq⟩ | ⟨hct, heq⟩ | ⟨chunks, hct, hnec, hcc⟩
        · have hops : (processSong env db song).1 = delOpsFor V db song := by rw [heq]
          rw [hops] at hj
          exact absurd hj (delOps_getElem_no_upsertPoints db song j pts)
        · have hops : (processSong env db song).1 =
              delOpsFor V db song ++
                [Op.stateUpsert song.song_id song.lyrics_hash song.meta_hash] := by
            rw [heq]
          rw [hops, hdel] at hj
          rcases j with _ | _ | j2 <;> simp at hj
        · rcases hcc with ⟨e, henc, heq⟩ | ⟨vecs, henc, hcc2⟩
          · have hops : (processSong env db song).1 = delOpsFor V db song := by rw [heq]
            rw [hops] at hj
            exact absurd hj (delOps_getElem_no_upsertPoints db song j pts)
          · rcases hcc2 with ⟨e, hup, heq⟩ | ⟨hup, heq⟩
            · have hops : (processSong env db song).1 = delOpsFor V db song := by
                rw [heq]
              rw [hops] at hj
              exact absurd hj (delOps_getElem_no_upsertPoints db song j pts)
            · have hops : (processSong env db song).1 =
                  delOpsFor V db song ++
                    [Op.upsertPoints (buildPoints song chunks vecs),
                     Op.stateUpsert song.song_id song.lyrics_hash song.meta_hash] := by
                rw [heq]
              rw [hops, hdel] at hj ⊢
              rcases j with _ | j1
              · simp at hj
              · rcases j1 with _ | j2
                · exact ⟨0, by omega, by simp⟩
                · rcases j2 with _ | j3 <;> simp at hj
  · intro hget k v hmem
    have hch : isChangedFor db song = false := by simp [isChangedFor, hget]
    have hdel : delOpsFor V db song = ([] : List (Op V)) := by simp [delOpsFor, hch]
    rcases processSong_shape env db song with ⟨hact, heq⟩ | ⟨hact, hbr⟩
    · have hops : (processSong env db song).1 = [] := by rw [heq]
      rw [hops] at hmem
      simp at hmem
    · rcases hbr with ⟨e, hch2, hdele, heq⟩ | ⟨hdelok, hcore⟩
      · rw [hch2] at hch
        cases hch
      · rcases hcore with ⟨e, hct, heq⟩ | ⟨hct, heq⟩ | ⟨chunks, hct, hnec, hcc⟩
        · have hops : (processSong env db song).1 = delOpsFor V db song := by rw [heq]
          rw [hops, hdel] at hmem
          simp at hmem
        · have hops : (processSong env db song).1 =
              delOpsFor V db song ++
                [Op.stateUpsert song.song_id song.lyrics_hash song.meta_hash] := by
            rw [heq]
          rw [hops, hdel] at hmem
          simp at hmem
        · rcases hcc with ⟨e, henc, heq⟩ | ⟨vecs, henc, hcc2⟩
          · have hops : (processSong env db song).1 = delOpsFor V db song := by rw [heq]
            rw [hops, hdel] at hmem
            simp at hmem
          · rcases hcc2 with ⟨e, hup, heq⟩ | ⟨hup, heq⟩
            · have hops : (processSong env db song).1 = delOpsFor V db song := by
                rw [heq]
              rw [hops, hdel] at hmem
              simp at hmem
            · have hops : (processSong env db song).1 =
                  delOpsFor V db song ++
                    [Op.upsertPoints (buildPoints song chunks vecs),
                     Op.stateUpsert song.song_id song.lyrics_hash song.meta_hash] := by
                rw [heq]
              rw [hops, hdel] at hmem
              simp at hmem

/-- Claim C8: a NEW or CHANGED song whose lyrics chunk to zero chunks gets
its state record committed (hashes upserted) with zero point upserts, and
the committed row makes the song skip on the next run. -/
theorem processSong_zero_chunks_commits {V : Type} (env : Env V) (db : StateDB)
    (song : Song)
    (hct : chunk_text song.lyrics 1200 200 = .ok [])
    (hact : (isNewFor db song || isChangedFor db song) = true)
    (hdelok : (if isChangedFor db song then env.deleteResult song.song_id
               else Except.ok ()) = .ok ()) :
    processSong env db song =
      (delOpsFor V db song ++
         [Op.stateUpsert song.song_id song.lyrics_hash song.meta_hash],
       dbUpsert db song.song_id song.lyrics_hash song.meta_hash, .ok false) ∧
    (∀ pts, Op.upsertPoints pts ∉ (processSong env db song).1) ∧
    dbGet (processSong env db song).2.1 song.song_id =
      some (song.lyrics_hash, song.meta_hash) := by
  rcases processSong_shape_core env db song hact hdelok with
    ⟨e, hct2, heq⟩ | ⟨hct2, heq⟩ | ⟨chunks, hct2, hnec, hcc⟩
  · rw [hct] at hct2
    cases hct2
  · refine ⟨heq, ?_, ?_⟩
    · intro pts hmem
      have hops : (processSong env db song).1 =
          delOpsFor V db song ++
            [Op.stateUpsert song.song_id song.lyrics_hash song.meta_hash] := by
        rw [heq]
      rw [hops] at hmem
      rcases List.mem_append.mp hmem with hmem2 | hmem2
      · exact delOps_no_upsertPoints_mem db song pts hmem2
      · simp at hmem2
    · have hdb : (processSong env db song).2.1 =
          dbUpsert db song.song_id song.lyrics_hash song.meta_hash := by rw [heq]
      rw [hdb]
      exact dbGet_dbUpsert_self db song.song_id song.lyrics_hash song.meta_hash
  · rw [hct] at hct2
    simp at hct2
    exact absurd hct2 hnec

/-- Claim C9 (amended): an uncaught error while embedding or upserting one
song aborts the whole run: the failing song's state is never committed and
the state database is left exactly as it was before that song, but the
remaining songs of the batch are NOT processed (the source has no per-song
try/except). -/
theorem processSong_error_aborts {V : Type} (env : Env V) (db : StateDB)
    (song : Song) (rest : List Song) (il : Nat) (sl : Option Nat)
    (processed scanned : Nat) (e : String)
    (herr : (processSong env db song).2.2 = .error e)
    (hsb : scanBreak sl (scanned + 1) = false) :
    (processSong env db song).2.1 = db ∧
    (∀ sid lh mh, Op.stateUpsert sid lh mh ∉ (processSong env db song).1) ∧
    mainLoop env il sl db (song :: rest) processed scanned =
      ((processSong env db song).1, db, .error e) := by
  have key : (processSong env db song).2.1 = db ∧
      (∀ sid lh mh, Op.stateUpsert sid lh mh ∉ (processSong env db song).1) ∧
      processSong env db song = ((processSong env db song).1, db, .error e) := by
    rcases processSong_shape env db song with ⟨hact, heq⟩ | ⟨hact, hbr⟩
    · rw [heq] at herr
      cases herr
    · rcases hbr with ⟨e2, hch2, hdele, heq⟩ | ⟨hdelok, hcore⟩
      · have he2 : e2 = e := by
          rw [heq] at herr
          cases herr
          rfl
        subst he2
        refine ⟨by rw [heq], ?_, by rw [heq]⟩
        intro sid lh mh hmem
        have hops : (processSong env db song).1 = [] := by rw [heq]
        rw [hops] at hmem
        simp at hmem
      · rcases hcore with ⟨e2, hct, heq⟩ | ⟨hct, heq⟩ | ⟨chunks, hct, hnec, hcc⟩
        · have he2 : e2 = e := by
            rw [heq] at herr
            cases herr
            rfl
          subst he2
          refine ⟨by rw [heq], ?_, by rw [heq]⟩
          intro sid lh mh hmem
          have hops : (processSong env db song).1 = delOpsFor V db song := by rw [heq]
          rw [hops] at hmem
          exact delOps_no_stateUpsert_mem db song sid lh mh hmem
        · rw [heq] at herr
          cases herr
        · rcases hcc with ⟨e2, henc, heq⟩ | ⟨vecs, henc, hcc2⟩
          · have he2 : e2 = e := by
              rw [heq] at herr
              cases herr
              rfl
            subst he2
            refine ⟨by rw [heq], ?_, by rw [heq]⟩
            intro sid lh mh hmem
            have hops : (processSong env db song).1 = delOpsFor V db song := by rw [heq]
            rw [hops] at hmem
            exact delOps_no_stateUpsert_mem db song sid lh mh hmem
          · rcases hcc2 with ⟨e2, hup, heq⟩ | ⟨hup, heq⟩
            · have he2 : e2 = e := by
                rw [heq] at herr
                cases herr
                rfl
              subst he2
              refine ⟨by rw [heq], ?_, by rw [heq]⟩
              intro sid lh mh hmem
              have hops : (processSong env db song).1 = delOpsFor V db song := by
                rw [heq]
              rw [hops] at hmem
              exact delOps_no_stateUpsert_mem db song sid lh mh hmem
            · rw [heq] at herr
              cases herr
  refine ⟨key.1, key.2.1, ?_⟩
  rw [mainLoop]
  simp only [hsb, Bool.false_eq_true, if_false]
  rw [key.2.2]

/-! Concrete witness data for the orchestrator claims. -/

instance {eTy aTy : Type} [DecidableEq eTy] [DecidableEq aTy] :
    DecidableEq (Except eTy aTy) := fun a b =>
  match a, b with
  | .error e1, .error e2 =>
    if h : e1 = e2 then isTrue (by rw [h])
    else isFalse (by intro hc; cases hc; exact h rfl)
  | .ok x, .ok y =>
    if h : x = y then isTrue (by rw [h])
    else isFalse (by intro hc; cases hc; exact h rfl)
  | .error _, .ok _ => isFalse (by intro hc; cases hc)
  | .ok _, .error _ => isFalse (by intro hc; cases hc)

/-- An environment whose embedding and index calls always succeed. -/
def envOk : Env Nat where
  encode := fun chunks => .ok (chunks.map fun _ => 0)
  upsertResult := fun _ => .ok ()
  deleteResult := fun _ => .ok ()

/-- An environment whose embedding call fails exactly on the chunk list of
songX below. -/
def envBad : Env Nat where
  encode := fun chunks =>
    if chunks = [['x']] then .error "boom" else .ok (chunks.map fun _ => 0)
  upsertResult := fun _ => .ok ()
  deleteResult := fun _ => .ok ()

def songA : Song where
  song_id := "sA"
  lyrics := ['a', 'b']
  lyrics_hash := "LA"
  meta_hash := "MA"
  metadata := {}

def songE : Song where
  song_id := "sE"
  lyrics := []
  lyrics_hash := "LE"
  meta_hash := "ME"
  metadata := {}

def songX : Song where
  song_id := "sX"
  lyrics := ['x']
  lyrics_hash := "LX"
  meta_hash := "MX"
  metadata := {}

def songY : Song where
  song_id := "sY"
  lyrics := ['y']
  lyrics_hash := "LY"
  meta_hash := "MY"
  metadata := {}

/-- Witness for C1 at a concrete one-song run: the state commit sits at
index 1 of the trace and the conclusion produces the earlier upsert. -/
theorem ingest_state_commit_after_upsert_witness :
    (mainLoop envOk 50 none [] [songA] 0 0).1[1]? =
      some (Op.stateUpsert "sA" "LA" "MA") ∧
    ((∃ j, j < 1 ∧ ∃ song chunks vecs, song ∈ [songA] ∧ song.song_id = "sA" ∧
        chunk_text song.lyrics 1200 200 = .ok chunks ∧ chunks ≠ [] ∧
        envOk.encode chunks = .ok vecs ∧
        envOk.upsertResult (buildPoints song chunks vecs) = .ok () ∧
        (mainLoop envOk 50 none [] [songA] 0 0).1[j]? =
          some (Op.upsertPoints (buildPoints song chunks vecs))) ∨
     (∃ song, song ∈ [songA] ∧ song.song_id = "sA" ∧
        chunk_text song.lyrics 1200 200 = .ok [])) :=
  ⟨by decide,
   ingest_state_commit_after_upsert envOk 50 none [songA] [] 0 0 1 "sA" "LA" "MA"
     (by decide)⟩

/-- Witness for C2: stored hash "LA" matches while the stored metadata hash
"Mother" differs from songA's "MA"; the song is skipped with no writes. -/
theorem processSong_unchanged_skips_witness :
    dbGet [("sA", "LA", "Mother")] songA.song_id = some ("LA", "Mother") ∧
    "LA" = songA.lyrics_hash ∧ "Mother" ≠ songA.meta_hash ∧
    processSong envOk [("sA", "LA", "Mother")] songA =
      ([], [("sA", "LA", "Mother")], .ok false) :=
  ⟨rfl, rfl, by decide,
   processSong_unchanged_skips envOk [("sA", "LA", "Mother")] songA "LA" "Mother" rfl rfl⟩

/-- Witness for C3: a CHANGED song (stored hash "OLD" differs) has its delete
at index 0, strictly before the upsert at index 1; a NEW song issues no
delete. -/
theorem processSong_delete_before_upsert_witness :
    (∃ i2 : Nat, i2 < 1 ∧
      (processSong envOk [("sA", "OLD", "MA")] songA).1[i2]? =
        some (Op.deleteByFilter "song_id" songA.song_id)) ∧
    (∀ k v, Op.deleteByFilter k v ∉ (processSong envOk [] songA).1) :=
  ⟨(processSong_delete_before_upsert envOk [("sA", "OLD", "MA")] songA).1
      ⟨"OLD", "MA", rfl, by decide⟩ 1 (buildPoints songA [['a', 'b']] [0]) (by decide),
   (processSong_delete_before_upsert envOk [] songA).2 rfl⟩

/-- Witness for C8 at a concrete empty-lyrics song: state committed, zero
point upserts, and the committed row visible to the next run's lookup. -/
theorem processSong_zero_chunks_commits_witness :
    chunk_text songE.lyrics 1200 200 = .ok [] ∧
    (isNewFor [] songE || isChangedFor [] songE) = true ∧
    (processSong envOk [] songE =
      (delOpsFor Nat [] songE ++
         [Op.stateUpsert songE.song_id songE.lyrics_hash songE.meta_hash],
       dbUpsert [] songE.song_id songE.lyrics_hash songE.meta_hash, .ok false) ∧
     (∀ pts, Op.upsertPoints pts ∉ (processSong envOk [] songE).1) ∧
     dbGet (processSong envOk [] songE).2.1 songE.song_id =
       some (songE.lyrics_hash, songE.meta_hash)) :=
  ⟨rfl, rfl, processSong_zero_chunks_commits envOk [] songE rfl rfl rfl⟩

/-- Counterexample to C9 as stated: songY is processable on its own (it
reaches a committed state), but after songX's embedding error the run aborts
with an empty trace and unchanged state database — the remaining songs are
not processed, contradicting the claimed catch-and-continue behavior. -/
theorem ingest_error_stops_batch :
    (processSong envBad [] songY).2.2 = .ok true ∧
    Op.stateUpsert "sY" "LY" "MY" ∈ (processSong envBad [] songY).1 ∧
    (processSong envBad [] songX).2.2 = .error "boom" ∧
    ingestMain envBad [] [songX, songY] 50 none = ([], [], .error "boom") :=
  ⟨by decide, by decide, by decide, by decide⟩

/-- Witness for the amended C9 at the concrete failing run. -/
theorem processSong_error_aborts_witness :
    (processSong envBad [] songX).2.2 = .error "boom" ∧
    scanBreak none (0 + 1) = false ∧
    ((processSong envBad [] songX).2.1 = [] ∧
     (∀ sid lh mh, Op.stateUpsert sid lh mh ∉ (processSong envBad [] songX).1) ∧
     mainLoop envBad 50 none [] [songX, songY] 0 0 =
       ((processSong envBad [] songX).1, [], .error "boom")) :=
  ⟨by decide, rfl,
   processSong_error_aborts envBad [] songX [songY] 50 none 0 0 "boom" (by decide) rfl⟩

/-! ## Retrieval / collapse engine
(playlist_builder.py, search_qdrant.py)

Chunk-level hits from the vector index carry a similarity score (modelled as
a rational) and an optional payload dictionary.  The source guards with
`payload or {}` and Python falsiness of the song_id value. -/

structure HPayload where
  song_id : Option String := none
  title : Option String := none
  movie : Option String := none
  year : Option String := none
  mood : Option String := none
  decade : Option String := none
  themes : Option String := none
  chunk_txt : Option (List Char) := none
deriving DecidableEq, Repr

/-- The empty dict used as the `payload or {}` fallback. -/
def hpEmpty : HPayload := {}

structure SearchHit where
  score : ℚ
  payload : Option HPayload
deriving DecidableEq, Repr

/-- The effective song_id of a hit: payload.get("song_id") with the `if not
sid: continue` falsiness test (None or empty string are skipped). -/
def hitSid (h : SearchHit) : Option String :=
  match (h.payload.getD hpEmpty).song_id with
  | none => none
  | some s => if s = "" then none else some s

/-- best.get(sid): score of the stored entry for sid, if any. -/
def lookupBest : List (String × ℚ × HPayload) → String → Option ℚ
  | [], _ => none
  | (s, q, _) :: rest, sid => if s = sid then some q else lookupBest rest sid

/-- best[sid] = (q, p): in-place dict update keeping insertion order. -/
def replaceBest : List (String × ℚ × HPayload) → String → ℚ → HPayload →
    List (String × ℚ × HPayload)
  | [], _, _, _ => []
  | (s, q0, p0) :: rest, sid, q, p =>
    if s = sid then (sid, q, p) :: rest else (s, q0, p0) :: replaceBest rest sid q p

/-- One iteration of the collapse loop in
playlist_builder.collapse_to_unique_songs. -/
def collapseStep (best : List (String × ℚ × HPayload)) (h : SearchHit) :
    List (String × ℚ × HPayload) :=
  match hitSid h with
  | none => best
  | some sid =>
    match lookupBest best sid with
    | none => best ++ [(sid, h.score, h.payload.getD hpEmpty)]
    | some q0 =>
      if q0 < h.score then replaceBest best sid h.score (h.payload.getD hpEmpty)
      else best

/-- playlist_builder.collapse_to_unique_songs: keep the best-scoring chunk
per song, sort by score descending (Python sorted is stable), truncate to
k. -/
def collapse_to_unique_songs (hits : List SearchHit) (k : Nat) :
    List (String × ℚ × HPayload) :=
  (List.insertionSort (fun a b => b.2.1 ≤ a.2.1) (hits.foldl collapseStep [])).take k

/-- One result record of search_qdrant.search_songs. -/
structure SongOut where
  score : ℚ
  song_id : String
  title : Option String := none
  movie : Option String := none
  year : Option String := none
  mood : Option String := none
  decade : Option String := none
  themes : Option String := none
  best_chunk : List Char := []
deriving DecidableEq, Repr

/-- The record built for a hit in search_songs. -/
def mkSongOut (sid : String) (h : SearchHit) : SongOut :=
  let p := h.payload.getD hpEmpty
  { score := h.score, song_id := sid, title := p.title, movie := p.movie,
    year := p.year, mood := p.mood, decade := p.decade, themes := p.themes,
    best_chunk := (p.chunk_txt.getD []).take 240 }

def lookupOut : List (String × SongOut) → String → Option SongOut
  | [], _ => none
  | (s, r) :: rest, sid => if s = sid then some r else lookupOut rest sid

def replaceOut : List (String × SongOut) → String → SongOut →
    List (String × SongOut)
  | [], _, _ => []
  | (s, r0) :: rest, sid, r =>
    if s = sid then (sid, r) :: rest else (s, r0) :: replaceOut rest sid r

/-- One iteration of the dedup loop in search_qdrant.search_songs. -/
def searchStep (best : List (String × SongOut)) (h : SearchHit) :
    List (String × SongOut) :=
  match hitSid h with
  | none => best
  | some sid =>
    match lookupOut best sid with
    | none => best ++ [(sid, mkSongOut sid h)]
    | some r0 => if r0.score < h.score then replaceOut best sid (mkSongOut sid h) else best

/-- search_qdrant.search_songs dedup-and-rank core: best chunk per song,
sorted by score descending, truncated to top_k_songs. -/
def search_dedup (hits : List SearchHit) (top_k_songs : Nat) : List SongOut :=
  (List.insertionSort (fun a b => b.score ≤ a.score)
    ((hits.foldl searchStep []).map (fun x => x.2))).take top_k_songs

/-- Python round(x, 4): round half to even at 4 decimal places. -/
def pyRound4 (q : ℚ) : ℚ :=
  let s : ℚ := q * 10000
  let fl : Int := ⌊s⌋
  let frac : ℚ := s - fl
  let r : Int :=
    if frac < 1 / 2 then fl
    else if 1 / 2 < frac then fl + 1
    else if fl % 2 = 0 then fl else fl + 1
  (r : ℚ) / 10000

/-- A hit as consumed by build_playlist_from_query (payload accessed without
an `or {}` guard; the search call requests payloads). -/
structure QHit where
  score : ℚ
  payload : HPayload
deriving DecidableEq, Repr

structure PItem where
  score : ℚ
  song_id : String
  title : Option String := none
  movie : Option String := none
  mood : Option String := none
deriving DecidableEq, Repr

def qSid (h : QHit) : Option String :=
  match h.payload.song_id with
  | none => none
  | some s => if s = "" then none else some s

/-- The dedup loop of playlist_builder.build_playlist_from_query: first hit
per song_id wins, score rounded to 4 decimals, stop at k items. -/
def bpqGo (k : Nat) : List QHit → List String → List PItem → List PItem
  | [], _, playlist => playlist
  | h :: rest, seen, playlist =>
    match qSid h with
    | none => bpqGo k rest seen playlist
    | some sid =>
      if sid ∈ seen then bpqGo k rest seen playlist
      else
        if k ≤ (playlist ++
            [(⟨pyRound4 h.score, sid, h.payload.title, h.payload.movie,
              h.payload.mood⟩ : PItem)]).length then
          playlist ++
            [(⟨pyRound4 h.score, sid, h.payload.title, h.payload.movie,
              h.payload.mood⟩ : PItem)]
        else
          bpqGo k rest (sid :: seen)
            (playlist ++
              [(⟨pyRound4 h.score, sid, h.payload.title, h.payload.movie,
                h.payload.mood⟩ : PItem)])

def bpq_dedup (hits : List QHit) (k : Nat) : List PItem :=
  bpqGo k hits [] []

/-! Dictionary lemmas for the collapse fold. -/

lemma lookupBest_none_iff (best : List (String × ℚ × HPayload)) (sid : String) :
    lookupBest best sid = none ↔ sid ∉ best.map (fun x => x.1) := by
  induction best with
  | nil => simp [lookupBest]
  | cons e rest ih =>
    obtain ⟨s, q0, p0⟩ := e
    by_cases h : s = sid
    · subst h
      simp [lookupBest]
    · simp only [lookupBest, h, if_false, List.map_cons, List.mem_cons, ih]
      constructor
      · intro hn hc
        rcases hc with hc | hc
        · exact h hc.symm
        · exact hn hc
      · intro hn
        intro hc
        exact hn (Or.inr hc)

lemma lookupBest_none_not_mem (best : List (String × ℚ × HPayload))
    (sid : String) (q : ℚ) (p : HPayload)
    (hl : lookupBest best sid = none) : (sid, q, p) ∉ best := by
  intro hmem
  rw [lookupBest_none_iff] at hl
  exact hl (by
    apply List.mem_map.mpr
    exact ⟨(sid, q, p), hmem, rfl⟩)

lemma lookupBest_some_mem (best : List (String × ℚ × HPayload))
    (sid : String) (q : ℚ) (hl : lookupBest best sid = some q) :
    ∃ p, (sid, q, p) ∈ best := by
  induction best with
  | nil => simp [lookupBest] at hl
  | cons e rest ih =>
    obtain ⟨s, q0, p0⟩ := e
    by_cases h : s = sid
    · subst h
      simp [lookupBest] at hl
      exact ⟨p0, by simp [hl]⟩
    · simp only [lookupBest, h, if_false] at hl
      obtain ⟨p, hp⟩ := ih hl
      exact ⟨p, by simp [hp]⟩

lemma lookupBest_append_some (best l : List (String × ℚ × HPayload))
    (sid : String) (q : ℚ) (hl : lookupBest best sid = some q) :
    lookupBest (best ++ l) sid = some q := by
  induction best with
  | nil => simp [lookupBest] at hl
  | cons e rest ih =>
    obtain ⟨s, q0, p0⟩ := e
    by_cases h : s = sid
    · subst h
      simp [lookupBest] at hl ⊢
      exact hl
    · simp only [lookupBest, h, if_false, List.cons_append] at hl ⊢
      exact ih hl

lemma lookupBest_append_none (best l : List (String × ℚ × HPayload))
    (sid : String) (hl : lookupBest best sid = none) :
    lookupBest (best ++ l) sid = lookupBest l sid := by
  induction best with
  | nil => simp
  | cons e rest ih =>
    obtain ⟨s, q0, p0⟩ := e
    by_cases h : s = sid
    · subst h
      simp [lookupBest] at hl
    · simp only [lookupBest, h, if_false, List.cons_append] at hl ⊢
      exact ih hl

lemma replaceBest_keys (best : List (String × ℚ × HPayload)) (sid : String)
    (q : ℚ) (p : HPayload) :
    (replaceBest best sid q p).map (fun x => x.1) = best.map (fun x => x.1) := by
  induction best with
  | nil => simp [replaceBest]
  | cons e rest ih =>
    obtain ⟨s, q0, p0⟩ := e
    by_cases h : s = sid
    · subst h
      simp [replaceBest]
    · simp [replaceBest, h, ih]

lemma replaceBest_mem (best : List (String × ℚ × HPayload)) (sid : String)
    (q : ℚ) (p : HPayload) (x : String × ℚ × HPayload) :
    (best.map (fun y => y.1)).Nodup → x ∈ replaceBest best sid q p →
    x = (sid, q, p) ∨ (x ∈ best ∧ x.1 ≠ sid) := by
  induction best with
  | nil =>
    intro _ hx
    simp [replaceBest] at hx
  | cons e rest ih =>
    obtain ⟨s, q0, p0⟩ := e
    intro hnd hx
    simp only [List.map_cons, List.nodup_cons] at hnd
    by_cases h : s = sid
    · simp only [replaceBest, if_pos h, List.mem_cons] at hx
      rcases hx with hx | hx
      · exact Or.inl hx
      · right
        refine ⟨by simp [hx], ?_⟩
        intro hc
        refine absurd ?_ hnd.1
        rw [h]
        rw [← hc]
        exact List.mem_map.mpr ⟨x, hx, rfl⟩
    · simp only [replaceBest, h, if_false, List.mem_cons] at hx
      rcases hx with hx | hx
      · right
        subst hx
        exact ⟨by simp, h⟩
      · rcases ih hnd.2 hx with hx2 | hx2
        · exact Or.inl hx2
        · exact Or.inr ⟨by simp [hx2.1], hx2.2⟩

lemma replaceBest_self_mem (best : List (String × ℚ × HPayload)) (sid : String)
    (q : ℚ) (p : HPayload) (q0 : ℚ)
    (hl : lookupBest best sid = some q0) :
    (sid, q, p) ∈ replaceBest best sid q p := by
  induction best with
  | nil => simp [lookupBest] at hl
  | cons e rest ih =>
    obtain ⟨s, q1, p1⟩ := e
    by_cases h : s = sid
    · subst h
      simp [replaceBest]
    · simp only [lookupBest, h, if_false] at hl
      simp only [replaceBest, h, if_false, List.mem_cons]
      exact Or.inr (ih hl)

lemma lookupBest_unique (best : List (String × ℚ × HPayload)) (sid : String)
    (q q0 : ℚ) (p : HPayload) :
    (best.map (fun y => y.1)).Nodup →
    lookupBest best sid = some q0 → (sid, q, p) ∈ best → q = q0 := by
  induction best with
  | nil =>
    intro _ _ hmem
    simp at hmem
  | cons e rest ih =>
    obtain ⟨s, q1, p1⟩ := e
    intro hnd hl hmem
    simp only [List.map_cons, List.nodup_cons] at hnd
    by_cases h : s = sid
    · simp only [lookupBest, if_pos h, Option.some.injEq] at hl
      simp only [List.mem_cons, Prod.mk.injEq] at hmem
      rcases hmem with ⟨_, hq, _⟩ | hmem
      · rw [hq, hl]
      · refine absurd ?_ hnd.1
        rw [h]
        exact List.mem_map.mpr ⟨(sid, q, p), hmem, rfl⟩
    · simp only [lookupBest, h, if_false] at hl
      simp only [List.mem_cons, Prod.mk.injEq] at hmem
      rcases hmem with ⟨hs, _, _⟩ | hmem
      · exact absurd hs.symm h
      · exact ih hnd.2 hl hmem

/-- Invariant of the collapse fold: every stored entry carries the maximum
score attained by the processed hits of that song, every processed valid hit
has an entry, and keys are unique. -/
def bestInv (hs : List SearchHit) (best : List (String × ℚ × HPayload)) : Prop :=
  (∀ sid q p, (sid, q, p) ∈ best →
    (∃ h2, h2 ∈ hs ∧ hitSid h2 = some sid ∧ h2.score = q) ∧
    (∀ h2, h2 ∈ hs → hitSid h2 = some sid → h2.score ≤ q)) ∧
  (∀ h2, h2 ∈ hs → ∀ sid, hitSid h2 = some sid → lookupBest best sid ≠ none) ∧
  (best.map (fun x => x.1)).Nodup


lemma bestInv_step (hs : List SearchHit) (best : List (String × ℚ × HPayload))
    (h : SearchHit) (hinv : bestInv hs best) :
    bestInv (hs ++ [h]) (collapseStep best h) := by
  obtain ⟨hmax, hkeys, hnd⟩ := hinv
  unfold bestInv
  cases hsid : hitSid h with
  | none =>
    have heq : collapseStep best h = best := by simp [collapseStep, hsid]
    rw [heq]
    refine ⟨?_, ?_, hnd⟩
    · intro sid q p hmem
      obtain ⟨hatt, hbnd⟩ := hmax sid q p hmem
      obtain ⟨h0, h0m, h0s, h0q⟩ := hatt
      refine ⟨⟨h0, by simp [h0m], h0s, h0q⟩, ?_⟩
      intro h2 h2m h2s
      rcases List.mem_append.mp h2m with h2m2 | h2m2
      · exact hbnd h2 h2m2 h2s
      · simp only [List.mem_singleton] at h2m2
        subst h2m2
        rw [hsid] at h2s
        cases h2s
    · intro h2 h2m sid h2s
      rcases List.mem_append.mp h2m with h2m2 | h2m2
      · exact hkeys h2 h2m2 sid h2s
      · simp only [List.mem_singleton] at h2m2
        subst h2m2
        rw [hsid] at h2s
        cases h2s
  | some sid0 =>
    cases hlk : lookupBest best sid0 with
    | none =>
      have heq : collapseStep best h =
          best ++ [(sid0, h.score, h.payload.getD hpEmpty)] := by
        simp [collapseStep, hsid, hlk]
      rw [heq]
      refine ⟨?_, ?_, ?_⟩
      · intro sid q p hmem
        rcases List.mem_append.mp hmem with hmemL | hmemR
        · obtain ⟨hatt, hbnd⟩ := hmax sid q p hmemL
          obtain ⟨h0, h0m, h0s, h0q⟩ := hatt
          refine ⟨⟨h0, by simp [h0m], h0s, h0q⟩, ?_⟩
          intro h2 h2m h2s
          rcases List.mem_append.mp h2m with h2m2 | h2m2
          · exact hbnd h2 h2m2 h2s
          · simp only [List.mem_singleton] at h2m2
            subst h2m2
            rw [hsid] at h2s
            have hss : sid0 = sid := by simpa using h2s
            rw [← hss] at hmemL
            exact absurd hmemL
              (lookupBest_none_not_mem best sid0 q p hlk)
        · simp only [List.mem_singleton, Prod.mk.injEq] at hmemR
          obtain ⟨hs1, hs2, hs3⟩ := hmemR
          refine ⟨⟨h, by simp, by rw [hsid, hs1], hs2.symm⟩, ?_⟩
          intro h2 h2m h2s
          rcases List.mem_append.mp h2m with h2m2 | h2m2
          · rw [hs1] at h2s
            have hne := hkeys h2 h2m2 sid0 h2s
            exact absurd hlk hne
          · simp only [List.mem_singleton] at h2m2
            subst h2m2
            rw [← hs2]
      · intro h2 h2m sid h2s
        rcases List.mem_append.mp h2m with h2m2 | h2m2
        · have hne := hkeys h2 h2m2 sid h2s
          cases hl2 : lookupBest best sid with
          | none => exact absurd hl2 hne
          | some q2 =>
            rw [lookupBest_append_some best _ sid q2 hl2]
            simp
        · simp only [List.mem_singleton] at h2m2
          subst h2m2
          rw [hsid] at h2s
          have hss : sid0 = sid := by simpa using h2s
          rw [← hss]
          rw [lookupBest_append_none best _ sid0 hlk]
          simp [lookupBest]
      · rw [List.map_append, List.nodup_append]
        refine ⟨hnd, by simp, ?_⟩
        intro a ha hb
        simp only [List.map_cons, List.map_nil, List.mem_singleton] at hb
        rw [hb] at ha
        exact (lookupBest_none_iff best sid0).mp hlk ha
    | some q0 =>
      by_cases hq : q0 < h.score
      · have heq : collapseStep best h =
            replaceBest best sid0 h.score (h.payload.getD hpEmpty) := by
          simp [collapseStep, hsid, hlk, hq]
        rw [heq]
        obtain ⟨p0, hp0⟩ := lookupBest_some_mem best sid0 q0 hlk
        refine ⟨?_, ?_, ?_⟩
        · intro sid q p hmem
          rcases replaceBest_mem best sid0 h.score (h.payload.getD hpEmpty)
              (sid, q, p) hnd hmem with hx | ⟨hxm, hxs⟩
          · simp only [Prod.mk.injEq] at hx
            obtain ⟨hx1, hx2, hx3⟩ := hx
            refine ⟨⟨h, by simp, by rw [hsid, hx1], hx2.symm⟩, ?_⟩
            intro h2 h2m h2s
            rcases List.mem_append.mp h2m with h2m2 | h2m2
            · rw [hx1] at h2s
              have hb := (hmax sid0 q0 p0 hp0).2 h2 h2m2 h2s
              rw [hx2]
              exact le_of_lt (lt_of_le_of_lt hb hq)
            · simp only [List.mem_singleton] at h2m2
              subst h2m2
              rw [hx2]
          · obtain ⟨hatt, hbnd⟩ := hmax sid q p hxm
            obtain ⟨h0, h0m, h0s, h0q⟩ := hatt
            refine ⟨⟨h0, by simp [h0m], h0s, h0q⟩, ?_⟩
            intro h2 h2m h2s
            rcases List.mem_append.mp h2m with h2m2 | h2m2
            · exact hbnd h2 h2m2 h2s
            · simp only [List.mem_singleton] at h2m2
              subst h2m2
              rw [hsid] at h2s
              have hss : sid0 = sid := by simpa using h2s
              simp only at hxs
              exact absurd hss.symm hxs
        · intro h2 h2m sid h2s
          intro hc
          rw [lookupBest_none_iff, replaceBest_keys] at hc
          rcases List.mem_append.mp h2m with h2m2 | h2m2
          · exact hkeys h2 h2m2 sid h2s ((lookupBest_none_iff best sid).mpr hc)
          · simp only [List.mem_singleton] at h2m2
            subst h2m2
            rw [hsid] at h2s
            have hss : sid0 = sid := by simpa using h2s
            rw [← hss] at hc
            have := (lookupBest_none_iff best sid0).mpr hc
            rw [this] at hlk
            cases hlk
        · rw [replaceBest_keys]
          exact hnd
      · have heq : collapseStep best h = best := by
          simp [collapseStep, hsid, hlk, hq]
        rw [heq]
        refine ⟨?_, ?_, hnd⟩
        · intro sid q p hmem
          obtain ⟨hatt, hbnd⟩ := hmax sid q p hmem
          obtain ⟨h0, h0m, h0s, h0q⟩ := hatt
          refine ⟨⟨h0, by simp [h0m], h0s, h0q⟩, ?_⟩
          intro h2 h2m h2s
          rcases List.mem_append.mp h2m with h2m2 | h2m2
          · exact hbnd h2 h2m2 h2s
          · simp only [List.mem_singleton] at h2m2
            subst h2m2
            rw [hsid] at h2s
            have hss : sid0 = sid := by simpa using h2s
            rw [← hss] at hmem
            have hqq : q = q0 := lookupBest_unique best sid0 q q0 p hnd hlk hmem
            rw [hss] at hmem
            rw [hqq]
            exact le_of_not_lt hq
        · intro h2 h2m sid h2s
          rcases List.mem_append.mp h2m with h2m2 | h2m2
          · exact hkeys h2 h2m2 sid h2s
          · simp only [List.mem_singleton] at h2m2
            subst h2m2
            rw [hsid] at h2s
            have hss : sid0 = sid := by simpa using h2s
            rw [← hss]
            simp [hlk]

lemma bestInv_foldl : ∀ (hits hs : List SearchHit)
    (best : List (String × ℚ × HPayload)),
    bestInv hs best → bestInv (hs ++ hits) (hits.foldl collapseStep best) := by
  intro hits
  induction hits with
  | nil =>
    intro hs best hinv
    simpa using hinv
  | cons h t ih =>
    intro hs best hinv
    have h2 := ih (hs ++ [h]) (collapseStep best h) (bestInv_step hs best h hinv)
    rw [List.append_assoc] at h2
    simpa using h2

lemma bestInv_empty : bestInv [] [] := by
  unfold bestInv
  refine ⟨?_, ?_, ?_⟩ <;> simp [lookupBest]

/-- Every entry returned by collapse_to_unique_songs carries the maximum
chunk score among the input hits of its song, and that maximum is attained. -/
lemma collapse_mem_max (hits : List SearchHit) (k : Nat) (sid : String)
    (q : ℚ) (p : HPayload)
    (hmem : (sid, q, p) ∈ collapse_to_unique_songs hits k) :
    (∃ h2, h2 ∈ hits ∧ hitSid h2 = some sid ∧ h2.score = q) ∧
    (∀ h2, h2 ∈ hits → hitSid h2 = some sid → h2.score ≤ q) := by
  have hinv := bestInv_foldl hits [] [] bestInv_empty
  simp only [List.nil_append] at hinv
  have hmem2 : (sid, q, p) ∈ hits.foldl collapseStep [] := by
    have hperm := List.perm_insertionSort
      (fun (a b : String × ℚ × HPayload) => b.2.1 ≤ a.2.1) (hits.foldl collapseStep [])
    exact hperm.mem_iff.mp (List.mem_of_mem_take hmem)
  exact hinv.1 sid q p hmem2

/-! The same development for the dedup loop of search_songs. -/

lemma lookupOut_none_iff (best : List (String × SongOut)) (sid : String) :
    lookupOut best sid = none ↔ sid ∉ best.map (fun x => x.1) := by
  induction best with
  | nil => simp [lookupOut]
  | cons e rest ih =>
    obtain ⟨s, r0⟩ := e
    by_cases h : s = sid
    · subst h
      simp [lookupOut]
    · simp only [lookupOut, h, if_false, List.map_cons, List.mem_cons, ih]
      constructor
      · intro hn hc
        rcases hc with hc | hc
        · exact h hc.symm
        · exact hn hc
      · intro hn hc
        exact hn (Or.inr hc)

lemma lookupOut_none_not_mem (best : List (String × SongOut))
    (sid : String) (r : SongOut)
    (hl : lookupOut best sid = none) : (sid, r) ∉ best := by
  intro hmem
  rw [lookupOut_none_iff] at hl
  exact hl (List.mem_map.mpr ⟨(sid, r), hmem, rfl⟩)

lemma lookupOut_some_mem (best : List (String × SongOut))
    (sid : String) (r : SongOut) (hl : lookupOut best sid = some r) :
    (sid, r) ∈ best := by
  induction best with
  | nil => simp [lookupOut] at hl
  | cons e rest ih =>
    obtain ⟨s, r0⟩ := e
    by_cases h : s = sid
    · subst h
      simp [lookupOut] at hl
      simp [hl]
    · simp only [lookupOut, h, if_false] at hl
      simp [ih hl]

lemma lookupOut_append_some (best l : List (String × SongOut))
    (sid : String) (r : SongOut) (hl : lookupOut best sid = some r) :
    lookupOut (best ++ l) sid = some r := by
  induction best with
  | nil => simp [lookupOut] at hl
  | cons e rest ih =>
    obtain ⟨s, r0⟩ := e
    by_cases h : s = sid
    · subst h
      simp [lookupOut] at hl ⊢
      exact hl
    · simp only [lookupOut, h, if_false, List.cons_append] at hl ⊢
      exact ih hl

lemma lookupOut_append_none (best l : List (String × SongOut))
    (sid : String) (hl : lookupOut best sid = none) :
    lookupOut (best ++ l) sid = lookupOut l sid := by
  induction best with
  | nil => simp
  | cons e rest ih =>
    obtain ⟨s, r0⟩ := e
    by_cases h : s = sid
    · subst h
      simp [lookupOut] at hl
    · simp only [lookupOut, h, if_false, List.cons_append] at hl ⊢
      exact ih hl

lemma replaceOut_keys (best : List (String × SongOut)) (sid : String)
    (r : SongOut) :
    (replaceOut best sid r).map (fun x => x.1) = best.map (fun x => x.1) := by
  induction best with
  | nil => simp [replaceOut]
  | cons e rest ih =>
    obtain ⟨s, r0⟩ := e
    by_cases h : s = sid
    · subst h
      simp [replaceOut]
    · simp [replaceOut, h, ih]

lemma replaceOut_mem (best : List (String × SongOut)) (sid : String)
    (r : SongOut) (x : String × SongOut) :
    (best.map (fun y => y.1)).Nodup → x ∈ replaceOut best sid r →
    x = (sid, r) ∨ (x ∈ best ∧ x.1 ≠ sid) := by
  induction best with
  | nil =>
    intro _ hx
    simp [replaceOut] at hx
  | cons e rest ih =>
    obtain ⟨s, r0⟩ := e
    intro hnd hx
    simp only [List.map_cons, List.nodup_cons] at hnd
    by_cases h : s = sid
    · simp only [replaceOut, if_pos h, List.mem_cons] at hx
      rcases hx with hx | hx
      · exact Or.inl hx
      · right
        refine ⟨by simp [hx], ?_⟩
        intro hc
        refine absurd ?_ hnd.1
        rw [h]
        rw [← hc]
        exact List.mem_map.mpr ⟨x, hx, rfl⟩
    · simp only [replaceOut, h, if_false, List.mem_cons] at hx
      rcases hx with hx | hx
      · right
        subst hx
        exact ⟨by simp, h⟩
      · rcases ih hnd.2 hx with hx2 | hx2
        · exact Or.inl hx2
        · exact Or.inr ⟨by simp [hx2.1], hx2.2⟩

lemma lookupOut_unique (best : List (String × SongOut)) (sid : String)
    (r r0 : SongOut) :
    (best.map (fun y => y.1)).Nodup →
    lookupOut best sid = some r0 → (sid, r) ∈ best → r = r0 := by
  induction best with
  | nil =>
    intro _ _ hmem
    simp at hmem
  | cons e rest ih =>
    obtain ⟨s, r1⟩ := e
    intro hnd hl hmem
    simp only [List.map_cons, List.nodup_cons] at hnd
    by_cases h : s = sid
    · simp only [lookupOut, if_pos h, Option.some.injEq] at hl
      simp only [List.mem_cons, Prod.mk.injEq] at hmem
      rcases hmem with ⟨_, hr⟩ | hmem
      · rw [hr, hl]
      · refine absurd ?_ hnd.1
        rw [h]
        exact List.mem_map.mpr ⟨(sid, r), hmem, rfl⟩
    · simp only [lookupOut, h, if_false] at hl
      simp only [List.mem_cons, Prod.mk.injEq] at hmem
      rcases hmem with ⟨hs, _⟩ | hmem
      · exact absurd hs.symm h
      · exact ih hnd.2 hl hmem

/-- Invariant of the search_songs dedup fold. -/
def outInv (hs : List SearchHit) (best : List (String × SongOut)) : Prop :=
  (∀ sid r, (sid, r) ∈ best → r.song_id = sid ∧
    (∃ h2, h2 ∈ hs ∧ hitSid h2 = some sid ∧ h2.score = r.score) ∧
    (∀ h2, h2 ∈ hs → hitSid h2 = some sid → h2.score ≤ r.score)) ∧
  (∀ h2, h2 ∈ hs → ∀ sid, hitSid h2 = some sid → lookupOut best sid ≠ none) ∧
  (best.map (fun x => x.1)).Nodup

lemma outInv_step (hs : List SearchHit) (best : List (String × SongOut))
    (h : SearchHit) (hinv : outInv hs best) :
    outInv (hs ++ [h]) (searchStep best h) := by
  obtain ⟨hmax, hkeys, hnd⟩ := hinv
  unfold outInv
  cases hsid : hitSid h with
  | none =>
    have heq : searchStep best h = best := by simp [searchStep, hsid]
    rw [heq]
    refine ⟨?_, ?_, hnd⟩
    · intro sid r hmem
      obtain ⟨hsr, hatt, hbnd⟩ := hmax sid r hmem
      obtain ⟨h0, h0m, h0s, h0q⟩ := hatt
      refine ⟨hsr, ⟨h0, by simp [h0m], h0s, h0q⟩, ?_⟩
      intro h2 h2m h2s
      rcases List.mem_append.mp h2m with h2m2 | h2m2
      · exact hbnd h2 h2m2 h2s
      · simp only [List.mem_singleton] at h2m2
        subst h2m2
        rw [hsid] at h2s
        cases h2s
    · intro h2 h2m sid h2s
      rcases List.mem_append.mp h2m with h2m2 | h2m2
      · exact hkeys h2 h2m2 sid h2s
      · simp only [List.mem_singleton] at h2m2
        subst h2m2
        rw [hsid] at h2s
        cases h2s
  | some sid0 =>
    cases hlk : lookupOut best sid0 with
    | none =>
      have heq : searchStep best h = best ++ [(sid0, mkSongOut sid0 h)] := by
        simp [searchStep, hsid, hlk]
      rw [heq]
      refine ⟨?_, ?_, ?_⟩
      · intro sid r hmem
        rcases List.mem_append.mp hmem with hmemL | hmemR
        · obtain ⟨hsr, hatt, hbnd⟩ := hmax sid r hmemL
          obtain ⟨h0, h0m, h0s, h0q⟩ := hatt
          refine ⟨hsr, ⟨h0, by simp [h0m], h0s, h0q⟩, ?_⟩
          intro h2 h2m h2s
          rcases List.mem_append.mp h2m with h2m2 | h2m2
          · exact hbnd h2 h2m2 h2s
          · simp only [List.mem_singleton] at h2m2
            subst h2m2
            rw [hsid] at h2s
            have hss : sid0 = sid := by simpa using h2s
            rw [← hss] at hmemL
            exact absurd hmemL (lookupOut_none_not_mem best sid0 r hlk)
        · simp only [List.mem_singleton, Prod.mk.injEq] at hmemR
          obtain ⟨hs1, hs2⟩ := hmemR
          refine ⟨by rw [hs2, ← hs1]; rfl,
            ⟨h, by simp, by rw [hsid, hs1], by rw [hs2]; rfl⟩, ?_⟩
          intro h2 h2m h2s
          rcases List.mem_append.mp h2m with h2m2 | h2m2
          · rw [hs1] at h2s
            have hne := hkeys h2 h2m2 sid0 h2s
            exact absurd hlk hne
          · simp only [List.mem_singleton] at h2m2
            subst h2m2
            rw [hs2]
            exact le_refl _
      · intro h2 h2m sid h2s
        rcases List.mem_append.mp h2m with h2m2 | h2m2
        · have hne := hkeys h2 h2m2 sid h2s
          cases hl2 : lookupOut best sid with
          | none => exact absurd hl2 hne
          | some r2 =>
            rw [lookupOut_append_some best _ sid r2 hl2]
            simp
        · simp only [List.mem_singleton] at h2m2
          subst h2m2
          rw [hsid] at h2s
          have hss : sid0 = sid := by simpa using h2s
          rw [← hss]
          rw [lookupOut_append_none best _ sid0 hlk]
          simp [lookupOut]
      · rw [List.map_append, List.nodup_append]
        refine ⟨hnd, by simp, ?_⟩
        intro a ha hb
        simp only [List.map_cons, List.map_nil, List.mem_singleton] at hb
        rw [hb] at ha
        exact (lookupOut_none_iff best sid0).mp hlk ha
    | some r0 =>
      by_cases hq : r0.score < h.score
      · have heq : searchStep best h = replaceOut best sid0 (mkSongOut sid0 h) := by
          simp [searchStep, hsid, hlk, hq]
        rw [heq]
        have hp0 := lookupOut_some_mem best sid0 r0 hlk
        refine ⟨?_, ?_, ?_⟩
        · intro sid r hmem
          rcases replaceOut_mem best sid0 (mkSongOut sid0 h)
              (sid, r) hnd hmem with hx | ⟨hxm, hxs⟩
          · simp only [Prod.mk.injEq] at hx
            obtain ⟨hx1, hx2⟩ := hx
            refine ⟨by rw [hx2, ← hx1]; rfl,
              ⟨h, by simp, by rw [hsid, hx1], by rw [hx2]; rfl⟩, ?_⟩
            intro h2 h2m h2s
            rcases List.mem_append.mp h2m with h2m2 | h2m2
            · rw [hx1] at h2s
              have hb := (hmax sid0 r0 hp0).2.2 h2 h2m2 h2s
              rw [hx2]
              exact le_of_lt (lt_of_le_of_lt hb hq)
            · simp only [List.mem_singleton] at h2m2
              subst h2m2
              rw [hx2]
              exact le_refl _
          · obtain ⟨hsr, hatt, hbnd⟩ := hmax sid r hxm
            obtain ⟨h0, h0m, h0s, h0q⟩ := hatt
            refine ⟨hsr, ⟨h0, by simp [h0m], h0s, h0q⟩, ?_⟩
            intro h2 h2m h2s
            rcases List.mem_append.mp h2m with h2m2 | h2m2
            · exact hbnd h2 h2m2 h2s
            · simp only [List.mem_singleton] at h2m2
              subst h2m2
              rw [hsid] at h2s
              have hss : sid0 = sid := by simpa using h2s
              simp only at hxs
              exact absurd hss.symm hxs
        · intro h2 h2m sid h2s
          intro hc
          rw [lookupOut_none_iff, replaceOut_keys] at hc
          rcases List.mem_append.mp h2m with h2m2 | h2m2
          · exact hkeys h2 h2m2 sid h2s ((lookupOut_none_iff best sid).mpr hc)
          · simp only [List.mem_singleton] at h2m2
            subst h2m2
            rw [hsid] at h2s
            have hss : sid0 = sid := by simpa using h2s
            rw [← hss] at hc
            have hnone := (lookupOut_none_iff best sid0).mpr hc
            rw [hnone] at hlk
            cases hlk
        · rw [replaceOut_keys]
          exact hnd
      · have heq : searchStep best h = best := by
          simp [searchStep, hsid, hlk, hq]
        rw [heq]
        refine ⟨?_, ?_, hnd⟩
        · intro sid r hmem
          obtain ⟨hsr, hatt, hbnd⟩ := hmax sid r hmem
          obtain ⟨h0, h0m, h0s, h0q⟩ := hatt
          refine ⟨hsr, ⟨h0, by simp [h0m], h0s, h0q⟩, ?_⟩
          intro h2 h2m h2s
          rcases List.mem_append.mp h2m with h2m2 | h2m2
          · exact hbnd h2 h2m2 h2s
          · simp only [List.mem_singleton] at h2m2
            subst h2m2
            rw [hsid] at h2s
            have hss : sid0 = sid := by simpa using h2s
            rw [← hss] at hmem
            have hrr : r = r0 := lookupOut_unique best sid0 r r0 hnd hlk hmem
            rw [hrr]
            exact le_of_not_lt hq
        · intro h2 h2m sid h2s
          rcases List.mem_append.mp h2m with h2m2 | h2m2
          · exact hkeys h2 h2m2 sid h2s
          · simp only [List.mem_singleton] at h2m2
            subst h2m2
            rw [hsid] at h2s
            have hss : sid0 = sid := by simpa using h2s
            rw [← hss]
            simp [hlk]

lemma outInv_foldl : ∀ (hits hs : List SearchHit) (best : List (String × SongOut)),
    outInv hs best → outInv (hs ++ hits) (hits.foldl searchStep best) := by
  intro hits
  induction hits with
  | nil =>
    intro hs best hinv
    simpa using hinv
  | cons h t ih =>
    intro hs best hinv
    have h2 := ih (hs ++ [h]) (searchStep best h) (outInv_step hs best h hinv)
    rw [List.append_assoc] at h2
    simpa using h2

lemma outInv_empty : outInv [] [] := by
  unfold outInv
  refine ⟨?_, ?_, ?_⟩ <;> simp [lookupOut]

/-- Every record returned by the search_songs dedup carries the maximum
chunk score among the input hits of its song, and that maximum is attained. -/
lemma search_dedup_mem_max (hits : List SearchHit) (k : Nat) (r : SongOut)
    (hmem : r ∈ search_dedup hits k) :
    (∃ h2, h2 ∈ hits ∧ hitSid h2 = some r.song_id ∧ h2.score = r.score) ∧
    (∀ h2, h2 ∈ hits → hitSid h2 = some r.song_id → h2.score ≤ r.score) := by
  have hinv := outInv_foldl hits [] [] outInv_empty
  simp only [List.nil_append] at hinv
  have hmem2 : r ∈ (hits.foldl searchStep []).map (fun x => x.2) := by
    have hperm := List.perm_insertionSort
      (fun (a b : SongOut) => b.score ≤ a.score)
      ((hits.foldl searchStep []).map (fun x => x.2))
    exact hperm.mem_iff.mp (List.mem_of_mem_take hmem)
  obtain ⟨⟨sid, r2⟩, hmem3, hr2⟩ := List.mem_map.mp hmem2
  have hr2e : r2 = r := hr2
  obtain ⟨hsr, hatt, hbnd⟩ := hinv.1 sid r2 hmem3
  rw [hr2e] at hsr hatt hbnd
  rw [← hsr] at hatt hbnd
  exact ⟨hatt, hbnd⟩

/-- In the build_playlist_from_query dedup, when the hit list is sorted by
score descending (as the vector index returns it), every emitted item's
score is the rounded score of a maximal hit of its song. -/
lemma bpqGo_mem (k : Nat) : ∀ (hits : List QHit) (seen : List String)
    (pl : List PItem),
    List.Sorted (fun a b : QHit => b.score ≤ a.score) hits →
    ∀ it, it ∈ bpqGo k hits seen pl →
    it ∈ pl ∨ (it.song_id ∉ seen ∧
      ∃ h, h ∈ hits ∧ qSid h = some it.song_id ∧ it.score = pyRound4 h.score ∧
        ∀ h2, h2 ∈ hits → qSid h2 = some it.song_id → h2.score ≤ h.score) := by
  intro hits
  induction hits with
  | nil =>
    intro seen pl _ it hit
    rw [bpqGo] at hit
    exact Or.inl hit
  | cons h t ih =>
    intro seen pl hsort it hit
    have hsort2 : List.Sorted (fun a b : QHit => b.score ≤ a.score) t :=
      (List.sorted_cons.mp hsort).2
    have hhead : ∀ b ∈ t, b.score ≤ h.score := (List.sorted_cons.mp hsort).1
    rw [bpqGo] at hit
    cases hq : qSid h with
    | none =>
      rw [hq] at hit
      rcases ih seen pl hsort2 it hit with hpl | ⟨hnseen, h0, h0m, h0s, h0r, h0b⟩
      · exact Or.inl hpl
      · refine Or.inr ⟨hnseen, h0, by simp [h0m], h0s, h0r, ?_⟩
        intro h2 h2m h2s
        rcases List.mem_cons.mp h2m with h2m2 | h2m2
        · subst h2m2
          rw [hq] at h2s
          cases h2s
        · exact h0b h2 h2m2 h2s
    | some sid =>
      simp only [hq] at hit
      by_cases hseen : sid ∈ seen
      · rw [if_pos hseen] at hit
        rcases ih seen pl hsort2 it hit with hpl | ⟨hnseen, h0, h0m, h0s, h0r, h0b⟩
        · exact Or.inl hpl
        · refine Or.inr ⟨hnseen, h0, by simp [h0m], h0s, h0r, ?_⟩
          intro h2 h2m h2s
          rcases List.mem_cons.mp h2m with h2m2 | h2m2
          · subst h2m2
            rw [hq] at h2s
            have hss : sid = it.song_id := by simpa using h2s
            rw [hss] at hseen
            exact absurd hseen hnseen
          · exact h0b h2 h2m2 h2s
      · rw [if_neg hseen] at hit
        by_cases hlen : k ≤ (pl ++
            [(⟨pyRound4 h.score, sid, h.payload.title, h.payload.movie,
              h.payload.mood⟩ : PItem)]).length
        · rw [if_pos hlen] at hit
          rcases List.mem_append.mp hit with hpl | hitem
          · exact Or.inl hpl
          · simp only [List.mem_singleton] at hitem
            subst hitem
            refine Or.inr ⟨hseen, h, List.mem_cons_self h t, hq, rfl, ?_⟩
            intro h2 h2m h2s
            rcases List.mem_cons.mp h2m with h2m2 | h2m2
            · subst h2m2
              exact le_refl _
            · exact hhead h2 h2m2
        · rw [if_neg hlen] at hit
          rcases ih (sid :: seen) (pl ++
              [(⟨pyRound4 h.score, sid, h.payload.title, h.payload.movie,
                h.payload.mood⟩ : PItem)]) hsort2 it hit with
            hpl | ⟨hnseen, h0, h0m, h0s, h0r, h0b⟩
          · rcases List.mem_append.mp hpl with hpl2 | hitem
            · exact Or.inl hpl2
            · simp only [List.mem_singleton] at hitem
              subst hitem
              refine Or.inr ⟨hseen, h, List.mem_cons_self h t, hq, rfl, ?_⟩
              intro h2 h2m h2s
              rcases List.mem_cons.mp h2m with h2m2 | h2m2
              · subst h2m2
                exact le_refl _
              · exact hhead h2 h2m2
          · simp only [List.mem_cons] at hnseen
            push_neg at hnseen
            refine Or.inr ⟨hnseen.2, h0, by simp [h0m], h0s, h0r, ?_⟩
            intro h2 h2m h2s
            rcases List.mem_cons.mp h2m with h2m2 | h2m2
            · subst h2m2
              rw [hq] at h2s
              have hss : sid = it.song_id := by simpa using h2s
              exact absurd hss.symm hnseen.1
            · exact h0b h2 h2m2 h2s

/-- Lifted to bpq_dedup. -/
lemma bpq_dedup_sorted_max (hits : List QHit) (k : Nat) (it : PItem)
    (hsort : List.Sorted (fun a b : QHit => b.score ≤ a.score) hits)
    (hmem : it ∈ bpq_dedup hits k) :
    ∃ h, h ∈ hits ∧ qSid h = some it.song_id ∧ it.score = pyRound4 h.score ∧
      ∀ h2, h2 ∈ hits → qSid h2 = some it.song_id → h2.score ≤ h.score := by
  rcases bpqGo_mem k hits [] [] hsort it hmem with hpl | ⟨_, hrest⟩
  · simp at hpl
  · exact hrest

def pA : HPayload := { song_id := some "A" }

def pB : HPayload := { song_id := some "B" }

/-- Counterexample to C5 as stated: the dedup loop of
build_playlist_from_query keeps the FIRST hit per song, not the maximum: on
the hit sequence [(A, 0.5), (A, 0.9)] it reports 0.5 for song A while the
maximum chunk score among A's hits is 0.9. -/
theorem bpq_reports_first_not_max :
    bpq_dedup [⟨1/2, pA⟩, ⟨9/10, pA⟩] 20 = [{ score := 1/2, song_id := "A" }] ∧
    qSid ⟨9/10, pA⟩ = some "A" ∧ ¬((9 : ℚ)/10 ≤ 1/2) := by
  refine ⟨by with_unfolding_all rfl, rfl, by norm_num⟩

/-- Claim C5 (amended): collapse_to_unique_songs and the search_songs dedup
report for every returned song exactly the maximum chunk-level score among
that song's hits in the input sequence — attained by some hit, never an
average — and the concrete collapse example holds with its ordering; the
build_playlist_from_query dedup instead keeps the first hit per song (score
rounded to 4 decimals), which is a maximal hit of that song whenever the hit
sequence is sorted by score descending, as the vector index returns it. -/
theorem collapse_score_is_max :
    (∀ (hits : List SearchHit) (k : Nat) (sid : String) (q : ℚ) (p : HPayload),
       (sid, q, p) ∈ collapse_to_unique_songs hits k →
       (∃ h2, h2 ∈ hits ∧ hitSid h2 = some sid ∧ h2.score = q) ∧
       (∀ h2, h2 ∈ hits → hitSid h2 = some sid → h2.score ≤ q)) ∧
    (∀ (hits : List SearchHit) (k : Nat) (r : SongOut), r ∈ search_dedup hits k →
       (∃ h2, h2 ∈ hits ∧ hitSid h2 = some r.song_id ∧ h2.score = r.score) ∧
       (∀ h2, h2 ∈ hits → hitSid h2 = some r.song_id → h2.score ≤ r.score)) ∧
    (∀ (hits : List QHit) (k : Nat) (it : PItem),
       List.Sorted (fun a b : QHit => b.score ≤ a.score) hits →
       it ∈ bpq_dedup hits k →
       ∃ h, h ∈ hits ∧ qSid h = some it.song_id ∧ it.score = pyRound4 h.score ∧
         ∀ h2, h2 ∈ hits → qSid h2 = some it.song_id → h2.score ≤ h.score) ∧
    collapse_to_unique_songs
      [⟨9/10, some pA⟩, ⟨1/2, some pA⟩, ⟨7/10, some pB⟩] 10 =
      [("A", 9/10, pA), ("B", 7/10, pB)] :=
  ⟨collapse_mem_max, search_dedup_mem_max, bpq_dedup_sorted_max,
   by with_unfolding_all rfl⟩

/-- Witness for the amended C5: the bpq conjunct applied at a concrete
sorted two-hit list. -/
theorem collapse_score_is_max_witness :
    List.Sorted (fun a b : QHit => b.score ≤ a.score) [⟨9/10, pA⟩, ⟨1/2, pA⟩] ∧
    ({ score := pyRound4 (9/10), song_id := "A" } : PItem) ∈
      bpq_dedup [⟨9/10, pA⟩, ⟨1/2, pA⟩] 20 ∧
    (∃ h, h ∈ [(⟨9/10, pA⟩ : QHit), ⟨1/2, pA⟩] ∧
      qSid h = some ({ score := pyRound4 (9/10), song_id := "A" } : PItem).song_id ∧
      ({ score := pyRound4 (9/10), song_id := "A" } : PItem).score =
        pyRound4 h.score ∧
      ∀ h2, h2 ∈ [(⟨9/10, pA⟩ : QHit), ⟨1/2, pA⟩] →
        qSid h2 = some ({ score := pyRound4 (9/10), song_id := "A" } : PItem).song_id →
        h2.score ≤ h.score) := by
  have hsort : List.Sorted (fun a b : QHit => b.score ≤ a.score)
      [⟨9/10, pA⟩, ⟨1/2, pA⟩] := by
    refine List.Pairwise.cons ?_ (List.pairwise_singleton _ _)
    intro b hb
    simp only [List.mem_singleton] at hb
    subst hb
    norm_num
  have hb : bpq_dedup [(⟨9/10, pA⟩ : QHit), ⟨1/2, pA⟩] 20 =
      [{ score := pyRound4 (9/10), song_id := "A" }] := by with_unfolding_all rfl
  have hmem : ({ score := pyRound4 (9/10), song_id := "A" } : PItem) ∈
      bpq_dedup [(⟨9/10, pA⟩ : QHit), ⟨1/2, pA⟩] 20 := by
    rw [hb]
    exact List.mem_cons_self _ _
  exact ⟨hsort, hmem,
    collapse_score_is_max.2.2.1 [⟨9/10, pA⟩, ⟨1/2, pA⟩] 20
      { score := pyRound4 (9/10), song_id := "A" } hsort hmem⟩

/-! ## Seed-mode playlist builder (playlist_builder.build_playlist_from_seed) -/

/-- The vector-index reads used by the seed-mode playlist builder: one point's
payload per song (scroll limit=1), one point's vector per song, and a mood-
filtered chunk search. -/
structure PEnv where
  scrollFirstPayload : String → Option HPayload
  scrollFirstVector : String → Option (List ℚ)
  search : List ℚ → Option String → Nat → List SearchHit

/-- playlist_builder.get_song_mood: mood of the first scrolled point, None
when the song has no points. -/
def get_song_mood (env : PEnv) (song_id : String) : Option String :=
  match env.scrollFirstPayload song_id with
  | none => none
  | some p => p.mood

/-- playlist_builder.get_seed_vector. -/
def get_seed_vector (env : PEnv) (song_id : String) : Option (List ℚ) :=
  env.scrollFirstVector song_id

/-- playlist_builder._mood_filter: no filter for a falsy mood. -/
def moodFilter (mood : Option String) : Option String :=
  match mood with
  | none => none
  | some m => if m = "" then none else some m

structure BItem where
  score : ℚ
  song_id : String
  title : Option String := none
  movie : Option String := none
  year : Option String := none
  mood : Option String := none
  decade : Option String := none
deriving DecidableEq, Repr

structure SeedResult where
  ok : Bool
  error : Option String := none
  seed_song_id : String
  mood : Option String := none
  count : Nat := 0
  items : List BItem := []
deriving DecidableEq, Repr

/-- playlist_builder.build_playlist_from_seed.  The dedup loop of the source
(lines 150-165) is a string literal, not code, so best_by_song is never
populated and the playlist is always empty. -/
def build_playlist_from_seed (env : PEnv) (seed_song_id : String)
    (limit_songs : Nat := 20) (oversample_chunks : Nat := 200) : SeedResult :=
  match get_song_mood env seed_song_id with
  | none =>
    { ok := false, error := some "Seed song_id not found in Qdrant",
      seed_song_id := seed_song_id }
  | some mood =>
    if mood = "" then
      { ok := false, error := some "Seed song_id not found in Qdrant",
        seed_song_id := seed_song_id }
    else
      match get_seed_vector env seed_song_id with
      | none =>
        { ok := false, error := some "Could not read seed vector",
          seed_song_id := seed_song_id }
      | some seed_vec =>
        if seed_vec = [] then
          { ok := false, error := some "Could not read seed vector",
            seed_song_id := seed_song_id }
        else
          let hits := env.search seed_vec (moodFilter (some mood)) oversample_chunks
          let best_by_song : List (String × BItem) := []
          let playlist :=
            (List.insertionSort (fun a b : BItem => b.score ≤ a.score)
              (best_by_song.map (fun x => x.2))).take limit_songs
          { ok := true, seed_song_id := seed_song_id, mood := some mood,
            count := playlist.length, items := playlist }

/-- A seed environment where song A has a romantic mood, an indexed vector,
and the mood-filtered search returns one strong non-seed hit for song B. -/
def envSeed : PEnv where
  scrollFirstPayload := fun sid =>
    if sid = "A" then some { song_id := some "A", mood := some "romantic" }
    else none
  scrollFirstVector := fun sid => if sid = "A" then some [1] else none
  search := fun _ _ _ => [⟨9/10, some { song_id := some "B", mood := some "romantic" }⟩]

/-- Claim C4 evaluated on the code: the seed playlist builder returns
ok=true with an EMPTY items list although the mood-filtered search produced
a non-seed hit for song B — the dedup loop of the source is commented out
(a string literal), so the claimed collapse never happens; the structured
not-found result for an unindexed seed does hold. -/
theorem build_playlist_from_seed_returns_empty :
    envSeed.search [1] (moodFilter (some "romantic")) 200 =
      [⟨9/10, some { song_id := some "B", mood := some "romantic" }⟩] ∧
    build_playlist_from_seed envSeed "A" 20 200 =
      { ok := true, error := none, seed_song_id := "A",
        mood := some "romantic", count := 0, items := [] } ∧
    build_playlist_from_seed envSeed "Z" 20 200 =
      { ok := false, error := some "Seed song_id not found in Qdrant",
        seed_song_id := "Z", mood := none, count := 0, items := [] } := by
  refine ⟨rfl, by decide, by decide⟩
